import Mathlib

/-!
Verification development for the `ctc` template expansion engine
(`ctc/template.py`, `ctc/printer.py`).

The Python code is shallowly embedded: the dynamic `grako.ast.AST` nodes
become Lean inductives (one per syntactic category), the JSON data
environment becomes the `Data` inductive, exceptions become `Except String`,
and the mutually recursive expansion walk (`TemplateEngine` together with
`TemplateInstanceGenerator`) is compiled with an explicit fuel parameter so
that all definitions stay structurally recursive and executable.  Fuel is
consumed once per recursion level, never per list element, so a fixed
`fuel + k` covers every input whose template nesting depth is below the
bound.  Source line numbers (taken from `grako` parse info in Python) are
not modelled; error messages are otherwise built exactly as in the source.
-/

namespace Ctc

/-- The externally supplied data environment: nested JSON-like structure of
mappings, sequences and scalars.  Scalar strings and numbers are separated
because Python treats strings as iterables (per character) while numbers
raise the "not iterable" error in `recursive_generator`. -/
inductive Data where
  | str (s : String)
  | num (n : Int)
  | seq (elems : List Data)
  | map (entries : List (String × Data))

mutual
/-- Python `repr` of a data value, used when values appear inside container
reprs and error messages. -/
def Data.reprPy : Data → String
  | .str s => "\x27" ++ s ++ "\x27"
  | .num n => toString n
  | .seq l => "[" ++ String.intercalate ", " (Data.reprPyList l) ++ "]"
  | .map l => "\x7b" ++ String.intercalate ", " (Data.reprPyPairs l) ++ "\x7d"

def Data.reprPyList : List Data → List String
  | [] => []
  | d :: rest => d.reprPy :: Data.reprPyList rest

def Data.reprPyPairs : List (String × Data) → List String
  | [] => []
  | (k, v) :: rest => ("\x27" ++ k ++ "\x27: " ++ v.reprPy) :: Data.reprPyPairs rest
end

/-- Python `str()` of a data value, as produced by `"...".format (value)`:
strings render as themselves, containers as their repr. -/
def Data.format : Data → String
  | .str s => s
  | d => d.reprPy

/-- A binding: one normalized element of an iterated collection, a Python
dict from field names to data values (association list in insertion order,
keys unique as produced by `dict`). -/
abbrev Binding := List (String × Data)

/-- Python dict lookup `b[k]` (as an `Option`). -/
def bFind (b : Binding) (k : String) : Option Data :=
  (b.find? (fun p => p.1 == k)).map (fun p => p.2)

/-- Python dict item assignment `b[k] = v`: overwrite in place if the key
exists, else append. -/
def setField (b : Binding) (k : String) (v : Data) : Binding :=
  if b.any (fun p => p.1 == k) then
    b.map (fun p => if p.1 == k then (k, v) else p)
  else b ++ [(k, v)]

/-- Python repr of a binding dict (for the `get_ref` KeyError message). -/
def Binding.reprPy (b : Binding) : String :=
  "\x7b" ++
    String.intercalate ", " (b.map (fun p => "\x27" ++ p.1 ++ "\x27: " ++ p.2.reprPy)) ++ "\x7d"

/-- A context / instance: tuple of bindings, indexed by template references. -/
abbrev Ctx := List Binding

/-- A template reference (`template.py` grammar node `tpl`): argument
reference into the data environment, key reference `@n@`, or field
reference `@n.field@`. -/
inductive Tpl where
  | arg (a : String)
  | key_ref (n : Nat)
  | field_ref (n : Nat) (field : String)
deriving DecidableEq

/-- Printer function `TemplateExprPrinter.template`: literal text of an unexpanded template
reference. -/
def templateStr : Tpl → String
  | .arg a => a
  | .key_ref n => toString n
  | .field_ref n f => toString n ++ "." ++ f

/-- A template name (`name` grammar node): interleaved literal fragments and
template references.  Python stores the flat list
`[lit₀, tpl₀, lit₁, tpl₁, …]`; we keep the head literal and the
`(reference, following-literal)` pairs. -/
structure TName where
  head : String
  tail : List (Tpl × String)
deriving DecidableEq

/-- Printer function `TemplateExprPrinter.name`: literal text of an unexpanded name
(`"@".join` over the interleaved parts). -/
def nameStr (n : TName) : String :=
  n.head ++ String.join (n.tail.map (fun p => "@" ++ templateStr p.1 ++ "@" ++ p.2))

/-- Body of `TemplateInstanceGenerator.expand` without its outer error wrapper:
resolve one template reference in a context against the data environment. -/
def expandCore (d : Data) (t : Tpl) (ctx : Ctx) : Except String Data :=
  match t with
  | .arg a =>
    match d with
    | .map entries =>
      match (entries.find? (fun p => p.1 == a)).map (fun p => p.2) with
      | some v => .ok v
      | none => .error ("name " ++ a ++ " not found in input data")
    | _ => .error "wrong data format"
  | .key_ref n => getRef ctx n "_key"
  | .field_ref n f => getRef ctx n f
where
  /-- the local `get_ref` closure: bounds-checked `context[n][field]`. -/
  getRef (ctx : Ctx) (n : Nat) (field : String) : Except String Data :=
    match ctx[n]? with
    | none => .error ("index " ++ toString n ++ " undefined (defined = [" ++
        String.intercalate ", " ((List.range ctx.length).map toString) ++ "])")
    | some b =>
      match bFind b field with
      | some v => .ok v
      | none => .error ("field " ++ field ++ " not found in context " ++ b.reprPy)

/-- Function `TemplateInstanceGenerator.expand`: resolve a template reference,
wrapping any failure with the literal template text (the Python wrapper also
prepends the source line number, which is parse-info not modelled here). -/
def expand (d : Data) (t : Tpl) (ctx : Ctx) : Except String Data :=
  match expandCore d t ctx with
  | .ok v => .ok v
  | .error e => .error ("in template " ++ templateStr t ++ ": " ++ e)

/-- Identifier validation `NAME_FORMAT = ^[A-Za-z][A-Za-z0-9_]*$`. -/
def nameFormat (s : String) : Bool :=
  match s.data with
  | [] => false
  | c :: rest => c.isAlpha && rest.all (fun c => c.isAlpha || c.isDigit || c == '_')

/-- Function `TemplateInstanceGenerator.name`: expand every embedded reference, glue
the literal fragments back (`"{}".join` + `format`), then validate; all
failures are wrapped with the literal unexpanded name text. -/
def nameE (d : Data) (n : TName) (ctx : Ctx) : Except String String :=
  let inner : Except String String := do
    let expanded ← n.tail.mapM (fun p => do
      let v ← expand d p.1 ctx
      pure (v.format, p.2))
    let s := n.head ++ String.join (expanded.map (fun p => p.1 ++ p.2))
    if nameFormat s then pure s
    else .error ("malformed: " ++ s)
  match inner with
  | .ok v => .ok v
  | .error e => .error ("in name " ++ nameStr n ++ ": " ++ e)

/-- Function `normalize` (local to `TemplateInstanceGenerator.instances`): turn one
iterated element into a binding dict.  A mapping entry keeps its fields (with
`_key` set to the entry key, overwriting a pre-existing `_key` field); a
scalar entry of a mapping is stored under the field name `value`; a sequence
element only gets `_key`. -/
def normalize (key : Data) (value : Option Data) : Binding :=
  match value with
  | none => setField [] "_key" key
  | some (.map entries) => setField entries "_key" key
  | some v => setField [("value", v)] "_key" key

/-- Key comparison used by the instance sort (`iterable.sort (key = …)`).
Python compares scalar keys natively (strings by code points, integers
numerically); comparing incompatible types raises `TypeError` in Python 3 —
those cases are totalized here by an arbitrary constructor rank so that the
sort stays executable (they are never exercised by well-typed data). -/
def charsLE : List Char → List Char → Bool
  | [], _ => true
  | _ :: _, [] => false
  | a :: as, b :: bs =>
    if a.toNat < b.toNat then true
    else if b.toNat < a.toNat then false
    else charsLE as bs

def Data.rank : Data → Nat
  | .num _ => 0
  | .str _ => 1
  | .seq _ => 2
  | .map _ => 3

def keyLE (a b : Data) : Bool :=
  match a, b with
  | .str x, .str y => charsLE x.data y.data
  | .num x, .num y => x ≤ y
  | x, y => x.rank ≤ y.rank

/-- Sort key of a binding: its `_key` field (always present after
`normalize`; the default is unreachable). -/
def keyOf (b : Binding) : Data :=
  (bFind b "_key").getD (.str "")

/-- Stable insertion used to model Python's stable `list.sort`. -/
def insertByKey (x : Binding) : List Binding → List Binding
  | [] => [x]
  | y :: ys => if keyLE (keyOf x) (keyOf y) then x :: y :: ys else y :: insertByKey x ys

/-- Stable sort by `_key` (`iterable.sort (key = lambda e: e["_key"])`).
Insertion sort is stable, like Python's sort, hence produces the same list. -/
def sortByKey : List Binding → List Binding
  | [] => []
  | x :: xs => insertByKey x (sortByKey xs)

/-- The normalization step of `recursive_generator`: classify the expanded
value as mapping / iterable / not-iterable and build the binding list.
Python strings are iterables of their characters; numbers are the only
non-iterable scalars. -/
def toBindings (t : Tpl) (v : Data) : Except String (List Binding) :=
  match v with
  | .map entries => .ok (entries.map (fun p => normalize (.str p.1) (some p.2)))
  | .seq l => .ok (l.map (fun k => normalize k none))
  | .str s => .ok (s.data.map (fun c => normalize (.str (String.singleton c)) none))
  | .num n => .error ("in template " ++ templateStr t ++
      ": expanded value is not iterable: " ++ Data.format (.num n))

/-- Function `recursive_generator` (local to `instances`): left-to-right cross
product over the declaration's reference list; reference `i` is expanded in
the outer context extended with the bindings already chosen for references
`0..i-1`.  Fuel decreases once per reference. -/
def recGen (d : Data) : Nat → List Tpl → Ctx → Except String (List Ctx)
  | _, [], _ => .ok [[]]
  | 0, _ :: _, _ => .error "fuel exhausted"
  | fuel + 1, t :: rest, ctx => do
    let it ← expand d t ctx
    let items ← toBindings t it
    let sorted := sortByKey items
    sorted.foldlM (fun acc h => do
      let tails ← recGen d fuel rest (ctx ++ [h])
      pure (acc ++ tails.map (fun tl => h :: tl))) []

/-! ## Template AST (the parsed, unexpanded tree) -/

/-- Reference grammar node `ref := name | name "[" name_list "]"`: the
Python node has exclusive `array` / `var` children. -/
inductive TRef where
  | array (name : TName) (index : List TName)
  | var (name : TName)
deriving DecidableEq

/-- Node `rvalue := ref | const`. -/
inductive TRValue where
  | ref (r : TRef)
  | const (c : String)
deriving DecidableEq

/-- Node `expr := rvalue | rvalue addsub_op rvalue` (`val` or `op` child). -/
inductive TExpr where
  | val (v : TRValue)
  | op (o : String) (lhs rhs : TRValue)
deriving DecidableEq

/-- Node `comp_expr := expr cmp_op expr`. -/
structure TComp where
  op : String
  lhs : TExpr
  rhs : TExpr
deriving DecidableEq

mutual
/-- Node `bool_expr := forall_expr | comp_expr`; the forall node also
carries its quantified process variable. -/
inductive TBool where
  | fa (proc : String) (body : TForallBody)
  | comp (c : TComp)

/-- Body of a `forall_other` node: a comparison or a parenthesized
or-expression. -/
inductive TForallBody where
  | comp (c : TComp)
  | expr (o : TOr)

/-- An element of an AND expression: plain boolean expression, template
AND-iterator (declaration + replicated body), or parenthesized nested OR. -/
inductive AndElem where
  | expr (b : TBool)
  | template (decl : TDecl) (body : List AndElem)
  | orE (o : TOr)

/-- An element of an OR expression: an AND expression or a template
OR-iterator whose body is an AND expression. -/
inductive OrElem where
  | expr (a : List AndElem)
  | template (decl : TDecl) (body : List AndElem)

/-- An OR expression: ordered list of OR elements. -/
inductive TOr where
  | mk (elems : List OrElem)

/-- A template declaration `@arg0, arg1, … | condition@`: ordered reference
list plus optional condition (Python stores `args = None` for a missing
list; `TemplateInstanceGenerator.instances` replaces it by `[]`, which is
what we model directly). -/
inductive TDecl where
  | mk (args : List Tpl) (cond : Option TOr)
end

/-- An AND expression: ordered list of AND elements. -/
abbrev TAnd := List AndElem

def TOr.elems : TOr → List OrElem
  | .mk es => es

def TDecl.args : TDecl → List Tpl
  | .mk a _ => a

def TDecl.cond : TDecl → Option TOr
  | .mk _ c => c

/-- A switch case: wildcard (`cond == '_'` in Python) or guarded. -/
inductive TCase where
  | wildcard (expr : TExpr)
  | guarded (cond : TAnd) (expr : TExpr)

/-- An element of a case list: plain case or template case-iterator. -/
inductive SwitchElem where
  | case (c : TCase)
  | template (decl : TDecl) (case_list : List SwitchElem)

/-- An assignment right-hand side: switch, expression, or the
nondeterministic-choice marker (`rand`). -/
inductive TAssignValue where
  | switch (s : List SwitchElem)
  | expr (e : TExpr)
  | rand

/-- An assignment `lhs := rhs`. -/
structure TAssign where
  lhs : TRef
  rhs : TAssignValue

/-- An element of an update list: plain assignment or template
update-iterator. -/
inductive UpdateElem where
  | assign (a : TAssign)
  | template (decl : TDecl) (updates : List UpdateElem)

/-- An element of a type's enum list: plain name or template iterator. -/
inductive TypeEnumElem where
  | name (n : TName)
  | template (decl : TDecl) (enum : List TypeEnumElem)

/-- A type declaration (the typename itself is not a template). -/
structure TTypeDef where
  name : String
  enum : List TypeEnumElem

/-- A variable declaration, with an optional outer template declaration. -/
structure TDeclNode where
  decl : Option TDecl
  kind : String
  name : TRef
  typename : String

/-- An init / invariant / unsafe construct: process-variable list plus
boolean formula, with an optional outer template declaration (unused for
`init`). -/
structure TProcExpr where
  decl : Option TDecl
  procs : List String
  expr : TOr

/-- A transition, with an optional outer template declaration. -/
structure TTransition where
  decl : Option TDecl
  name : TName
  procs : List String
  require : TOr
  updates : List UpdateElem

/-- The whole parsed model
(`model := [size_proc] type* decl* init invariant* unsafe* transition*`). -/
structure TModel where
  size_proc : Option String
  types : List TTypeDef
  decls : List TDeclNode
  init : TProcExpr
  invariants : List TProcExpr
  unsafes : List TProcExpr
  transitions : List TTransition

/-! ## Expanded AST (output of the engine; no template shapes remain) -/

/-- An expanded reference: names are plain strings now. -/
inductive ERef where
  | array (name : String) (index : List String)
  | var (name : String)
deriving DecidableEq

inductive ERValue where
  | ref (r : ERef)
  | const (c : String)
deriving DecidableEq

inductive EExpr where
  | val (v : ERValue)
  | op (o : String) (lhs rhs : ERValue)
deriving DecidableEq

structure EComp where
  op : String
  lhs : EExpr
  rhs : EExpr
deriving DecidableEq

mutual
/-- An expanded boolean expression; forall bodies may hold an expanded OR
expression, which is a flat list of AND branches (lists of `EBool`). -/
inductive EBool where
  | fa (proc : String) (body : EForallBody)
  | comp (c : EComp)

inductive EForallBody where
  | comp (c : EComp)
  | expr (o : List (List EBool))
end

/-- An expanded AND expression: flat list of expanded boolean expressions. -/
abbrev EAnd := List EBool

/-- An expanded OR expression: flat list of expanded AND branches. -/
abbrev EOr := List EAnd

inductive ECase where
  | wildcard (expr : EExpr)
  | guarded (cond : EAnd) (expr : EExpr)

inductive EAssignValue where
  | switch (s : List ECase)
  | expr (e : EExpr)
  | rand

structure EAssign where
  lhs : ERef
  rhs : EAssignValue

structure ETransition where
  name : String
  procs : List String
  require : Option EOr
  updates : List EAssign

structure ETypeDef where
  name : String
  enum : List String

structure EDecl where
  kind : String
  name : ERef
  typename : String

structure EProcExpr where
  procs : List String
  expr : EOr

/-- The expanded model produced by `TemplateEngine.run`.  `init` is the
result of `alter_f` and may be `None` when its formula expanded away. -/
structure EModel where
  size_proc : Option String
  types : List ETypeDef
  decls : List EDecl
  init : Option EProcExpr
  invariants : List EProcExpr
  unsafes : List EProcExpr
  transitions : List ETransition

/-! ## Restricted condition evaluator (`ExpandedExprTextEval`)

Python evaluates these with lazy `all (map …)` / `any (map …)`, so the
conjunction stops at the first false element and the disjunction at the
first true one; later elements are not evaluated at all (their errors are
never raised).  The translation reproduces that short-circuit order. -/

def textEvalRef : ERef → Except String String
  | .array _ _ => .error "arrays are not allowed in text evaluation"
  | .var n => .ok n

def textEvalRValue : ERValue → Except String String
  | .ref r => textEvalRef r
  | .const c => .ok c

def textEvalExpr : EExpr → Except String String
  | .val v => textEvalRValue v
  | .op _ _ _ => .error "+/- operations are not allowed in text evaluation"

/-- Evaluation of one comparison: the operator is looked up first (a
`KeyError` on anything but `=` / `<>` raises naming the operator), then
both sides are reduced to text, then the strings are compared. -/
def textEvalComp (c : EComp) : Except String Bool :=
  if c.op == "=" then do
    let l ← textEvalExpr c.lhs
    let r ← textEvalExpr c.rhs
    pure (l == r)
  else if c.op == "<>" then do
    let l ← textEvalExpr c.lhs
    let r ← textEvalExpr c.rhs
    pure (l != r)
  else .error (c.op ++ " operations are not allowed in text evaluation")

def textEvalBool : EBool → Except String Bool
  | .fa _ _ => .error "forall constructs are not allowed in text evaluation"
  | .comp c => textEvalComp c

def textEvalAnd : EAnd → Except String Bool
  | [] => .ok true
  | b :: rest => do
    let v ← textEvalBool b
    if v then textEvalAnd rest else pure false

def textEvalOr : EOr → Except String Bool
  | [] => .ok false
  | a :: rest => do
    let v ← textEvalAnd a
    if v then pure true else textEvalOr rest

/-! ## Expansion engine (`TemplateEngine`)

Every function below mirrors the method of the same name.  `alter_f`
(copy-with-update, deleting the node when a sub-expansion returns `None`)
is inlined at each use as an explicit `Option` match, in the same field
order as the Python keyword arguments (Python≥3.7 `dict` preserves it), so
a failing or `None` earlier field short-circuits the later ones exactly as
in the source.  Mutually recursive methods take a fuel argument, consumed
once per nesting level. -/

/-- Function `simplify` with `keep_list = False`: drop `None` elements, and
return `None` for an empty result. -/
def simplify (l : List (Option α)) : Option (List α) :=
  let cleaned := l.filterMap id
  if cleaned.length > 0 then some cleaned else none

/-- Function `simplify` with `keep_list = True`: drop `None` elements,
keeping an empty list. -/
def simplifyKeep (l : List (Option α)) : List α :=
  l.filterMap id

/-- Python `list.extend (x)` where `x` may be `None`: extending by `None`
raises an (uncaught) `TypeError`. -/
def extendO (acc : List α) : Option (List α) → Except String (List α)
  | none => .error "TypeError: NoneType object is not iterable"
  | some l => .ok (acc ++ l)

/-- Function `itertools.product` over a list of lists: all combinations,
leftmost factor varying slowest; the product of no factors is one empty
combination. -/
def listProduct : List (List α) → List (List α)
  | [] => [[]]
  | l :: ls => l.flatMap (fun x => (listProduct ls).map (fun c => x :: c))

/-- Method `index_list`: expand each index name; `simplify` makes an empty
index list `None` (names themselves never expand to `None`). -/
def index_list (d : Data) (il : List TName) (ctx : Ctx) :
    Except String (Option (List String)) := do
  let names ← il.mapM (fun n => nameE d n ctx)
  pure (simplify (names.map some))

/-- Methods `ref` / `array` / `var`: expand the name (and, for arrays, the
index list); the two child node kinds are inlined into the single `TRef`
match. -/
def refE (d : Data) (s : TRef) (ctx : Ctx) : Except String (Option ERef) :=
  match s with
  | .array n il => do
    let nm ← nameE d n ctx
    match ← index_list d il ctx with
    | none => pure none
    | some is => pure (some (.array nm is))
  | .var n => do
    let nm ← nameE d n ctx
    pure (some (.var nm))

/-- Method `rvalue`: constants pass through unchanged. -/
def rvalueE (d : Data) (v : TRValue) (ctx : Ctx) : Except String (Option ERValue) :=
  match v with
  | .ref r => do
    match ← refE d r ctx with
    | none => pure none
    | some er => pure (some (.ref er))
  | .const c => pure (some (.const c))

/-- Method `expr`: `alter_f` evaluates `lhs` before `rhs` and stops early
when the left side vanishes. -/
def exprE (d : Data) (e : TExpr) (ctx : Ctx) : Except String (Option EExpr) :=
  match e with
  | .val v => do
    match ← rvalueE d v ctx with
    | none => pure none
    | some ev => pure (some (.val ev))
  | .op o l r => do
    match ← rvalueE d l ctx with
    | none => pure none
    | some le =>
      match ← rvalueE d r ctx with
      | none => pure none
      | some re => pure (some (.op o le re))

/-- Method `comp_expr`. -/
def comp_expr (d : Data) (c : TComp) (ctx : Ctx) : Except String (Option EComp) := do
  match ← exprE d c.lhs ctx with
  | none => pure none
  | some el =>
    match ← exprE d c.rhs ctx with
    | none => pure none
    | some er => pure (some ⟨c.op, el, er⟩)

mutual
/-- Method `or_expr`: flatten each element's AND branches into one list,
then `simplify` (an OR that expanded to nothing becomes `None`). -/
def or_expr (d : Data) : Nat → TOr → Ctx → Except String (Option EOr)
  | 0, _, _ => .error "fuel exhausted"
  | fuel + 1, .mk elems, ctx => do
    let generated ← elems.foldlM (fun acc oe =>
      match oe with
      | .expr a => do
        let more ← and_expr_with_nested_or d fuel a ctx
        pure (acc ++ more)
      | .template decl body => do
        let insts ← instances d fuel (some decl) ctx
        insts.foldlM (fun acc2 inst => do
          let more ← and_expr_with_nested_or d fuel body inst
          pure (acc2 ++ more)) acc) []
    pure (simplify (generated.map some))

/-- Method `and_expr_with_nested_or`: one pass over the elements collects
the expanded plain elements (`bool_expr_list`, `None`s dropped) and one OR
expression per nested-OR-producing sub-term (parenthesized ORs and each
template instance's recursive expansion; `None`s dropped).  The result is
`[sum (combination, bool_expr_list) for combination in
itertools.product (*nested_or_exprs)]`: the flat list first, then the
chosen branches. -/
def and_expr_with_nested_or (d : Data) : Nat → TAnd → Ctx → Except String (List EAnd)
  | 0, _, _ => .error "fuel exhausted"
  | fuel + 1, a, ctx => do
    let acc ← a.foldlM
      (fun (acc : List (Option EBool) × List (Option (List EAnd))) ae =>
        match ae with
        | .expr b => do
          let eb ← bool_expr d fuel b ctx
          pure (acc.1 ++ [eb], acc.2)
        | .template decl body => do
          let insts ← instances d fuel (some decl) ctx
          let nl ← insts.foldlM (fun acc2 inst => do
            let sub ← and_expr_with_nested_or d fuel body inst
            pure (acc2 ++ [some sub])) acc.2
          pure (acc.1, nl)
        | .orE o => do
          let oe ← or_expr d fuel o ctx
          pure (acc.1, acc.2 ++ [oe])) ([], [])
    let bool_expr_list := simplifyKeep acc.1
    let nested_or_exprs := simplifyKeep acc.2
    pure ((listProduct nested_or_exprs).map (fun combo => bool_expr_list ++ combo.flatten))

/-- Method `and_expr` (AND not nested in an OR): flatten to a list of
expanded boolean expressions; a nested OR is illegal here.  A template
instance whose body expands to `None` hits Python's `extend (None)`
`TypeError` (not a template `Error`). -/
def and_expr (d : Data) : Nat → TAnd → Ctx → Except String (Option EAnd)
  | 0, _, _ => .error "fuel exhausted"
  | fuel + 1, a, ctx => do
    let generated ← a.foldlM (fun acc ae =>
      match ae with
      | .expr b => do
        let eb ← bool_expr d fuel b ctx
        pure (acc ++ [eb])
      | .template decl body => do
        let insts ← instances d fuel (some decl) ctx
        insts.foldlM (fun acc2 inst => do
          let sub ← and_expr d fuel body inst
          match sub with
          | none => Except.error "TypeError: NoneType object is not iterable"
          | some l => pure (acc2 ++ l.map some)) acc
      | .orE _ =>
        -- the Python message also embeds the line number and the printed
        -- unexpanded expression; the text prefix is kept
        .error "nested or expression not allowed here") []
    pure (simplify generated)

/-- Method `bool_expr`. -/
def bool_expr (d : Data) : Nat → TBool → Ctx → Except String (Option EBool)
  | 0, _, _ => .error "fuel exhausted"
  | fuel + 1, b, ctx =>
    match b with
    | .fa proc body => do
      match ← forall_expr d fuel body ctx with
      | none => pure none
      | some eb => pure (some (.fa proc eb))
    | .comp c => do
      match ← comp_expr d c ctx with
      | none => pure none
      | some ec => pure (some (.comp ec))

/-- Method `forall_expr`: the quantified body is expanded in the same
context. -/
def forall_expr (d : Data) : Nat → TForallBody → Ctx → Except String (Option EForallBody)
  | 0, _, _ => .error "fuel exhausted"
  | fuel + 1, fb, ctx =>
    match fb with
    | .comp c => do
      match ← comp_expr d c ctx with
      | none => pure none
      | some ec => pure (some (.comp ec))
    | .expr o => do
      match ← or_expr d fuel o ctx with
      | none => pure none
      | some eo => pure (some (.expr eo))

/-- Method `TemplateInstanceGenerator.instances`: no declaration yields the
outer context unchanged; otherwise cross-product the reference list and
filter each complete instance through the optional condition. -/
def instances (d : Data) : Nat → Option TDecl → Ctx → Except String (List Ctx)
  | _, none, ctx => .ok [ctx]
  | 0, some _, _ => .error "fuel exhausted"
  | fuel + 1, some dc, ctx => do
    let subs ← recGen d fuel dc.args ctx
    subs.foldlM (fun acc sub => do
      let inst := ctx ++ sub
      let keep ← eval_cond d fuel dc.cond inst
      pure (if keep then acc ++ [inst] else acc)) []

/-- Local function `eval_cond` of `instances`: expand the condition in the
candidate instance's context with the engine, then evaluate the expanded
tree textually.  A condition whose expansion is `None` makes Python iterate
over `None` (an uncaught `TypeError`). -/
def eval_cond (d : Data) : Nat → Option TOr → Ctx → Except String Bool
  | _, none, _ => .ok true
  | 0, some _, _ => .error "fuel exhausted"
  | fuel + 1, some c, ctx => do
    match ← or_expr d fuel c ctx with
    | none => .error "TypeError: NoneType object is not iterable"
    | some eo => textEvalOr eo

/-- Method `case`: a wildcard case only expands its expression; a guarded
case expands the guard (an AND expression) first. -/
def caseE (d : Data) : Nat → TCase → Ctx → Except String (Option ECase)
  | 0, _, _ => .error "fuel exhausted"
  | fuel + 1, c, ctx =>
    match c with
    | .wildcard e => do
      match ← exprE d e ctx with
      | none => pure none
      | some ee => pure (some (.wildcard ee))
    | .guarded cond e => do
      match ← and_expr d fuel cond ctx with
      | none => pure none
      | some ec =>
        match ← exprE d e ctx with
        | none => pure none
        | some ee => pure (some (.guarded ec ee))

/-- Method `switch`: flatten case iterators; dropped (`None`) cases vanish
through `simplify`. -/
def switch (d : Data) : Nat → List SwitchElem → Ctx → Except String (Option (List ECase))
  | 0, _, _ => .error "fuel exhausted"
  | fuel + 1, s, ctx => do
    let generated ← s.foldlM (fun acc se =>
      match se with
      | .case c => do
        let ec ← caseE d fuel c ctx
        pure (acc ++ [ec])
      | .template decl case_list => do
        let insts ← instances d fuel (some decl) ctx
        insts.foldlM (fun acc2 inst => do
          let sub ← switch d fuel case_list inst
          match sub with
          | none => Except.error "TypeError: NoneType object is not iterable"
          | some l => pure (acc2 ++ l.map some)) acc) []
    pure (simplify generated)

/-- Method `assign_value`. -/
def assign_value (d : Data) : Nat → TAssignValue → Ctx → Except String (Option EAssignValue)
  | 0, _, _ => .error "fuel exhausted"
  | fuel + 1, v, ctx =>
    match v with
    | .switch s => do
      match ← switch d fuel s ctx with
      | none => pure none
      | some es => pure (some (.switch es))
    | .expr e => do
      match ← exprE d e ctx with
      | none => pure none
      | some ee => pure (some (.expr ee))
    | .rand => pure (some .rand)

/-- Method `assign`: left-hand side first, then the value. -/
def assign (d : Data) : Nat → TAssign → Ctx → Except String (Option EAssign)
  | 0, _, _ => .error "fuel exhausted"
  | fuel + 1, u, ctx => do
    match ← refE d u.lhs ctx with
    | none => pure none
    | some el =>
      match ← assign_value d fuel u.rhs ctx with
      | none => pure none
      | some er => pure (some ⟨el, er⟩)

/-- Method `update_list`: flatten update iterators; dropped assignments
vanish through `simplify`, and a list that loses all elements becomes
`None`. -/
def update_list (d : Data) : Nat → List UpdateElem → Ctx → Except String (Option (List EAssign))
  | 0, _, _ => .error "fuel exhausted"
  | fuel + 1, l, ctx => do
    let generated ← l.foldlM (fun acc ue =>
      match ue with
      | .assign u => do
        let ea ← assign d fuel u ctx
        pure (acc ++ [ea])
      | .template decl updates => do
        let insts ← instances d fuel (some decl) ctx
        insts.foldlM (fun acc2 inst => do
          let sub ← update_list d fuel updates inst
          match sub with
          | none => Except.error "TypeError: NoneType object is not iterable"
          | some l2 => pure (acc2 ++ l2.map some)) acc) []
    pure (simplify generated)

/-- Method `type_enum_list` (`keep_list = True`: an abstract type with no
enum entries is permitted). -/
def type_enum_list (d : Data) : Nat → List TypeEnumElem → Ctx → Except String (List String)
  | 0, _, _ => .error "fuel exhausted"
  | fuel + 1, l, ctx => do
    let generated ← l.foldlM (fun acc te =>
      match te with
      | .name n => do
        let en ← nameE d n ctx
        pure (acc ++ [some en])
      | .template decl enum => do
        let insts ← instances d fuel (some decl) ctx
        insts.foldlM (fun acc2 inst => do
          let sub ← type_enum_list d fuel enum inst
          pure (acc2 ++ sub.map some)) acc) []
    pure (simplifyKeep generated)
end

/-- Method `transition`: the guard is expanded first and kept even when it
is `None` (plain `alter`, "allow require to be null"); then name and update
list via `alter_f`, so an empty expanded update list removes the whole
transition. -/
def transition (d : Data) (fuel : Nat) (t : TTransition) (ctx : Ctx) :
    Except String (Option ETransition) := do
  let req ← or_expr d fuel t.require ctx
  let nm ← nameE d t.name ctx
  match ← update_list d fuel t.updates ctx with
  | none => pure none
  | some ups => pure (some ⟨nm, t.procs, req, ups⟩)

/-- Method `transitions` (`keep_list = True`: no transition is allowed,
producing empty output for the downstream checker to reject). -/
def transitions (d : Data) (fuel : Nat) (ts : List TTransition) :
    Except String (List ETransition) := do
  let generated ← ts.foldlM (fun acc t => do
    let insts ← instances d fuel t.decl []
    insts.foldlM (fun acc2 inst => do
      let et ← transition d fuel t inst
      pure (acc2 ++ [et])) acc) []
  pure (simplifyKeep generated)

/-- Method `decl`: the typename is not a template; only the reference is
expanded. -/
def declE (d : Data) (dn : TDeclNode) (ctx : Ctx) : Except String (Option EDecl) := do
  match ← refE d dn.name ctx with
  | none => pure none
  | some en => pure (some ⟨dn.kind, en, dn.typename⟩)

/-- Method `decls` (`keep_list = True`: no declaration is allowed,
producing empty output for the downstream checker to reject). -/
def decls (d : Data) (fuel : Nat) (ds : List TDeclNode) : Except String (List EDecl) := do
  let generated ← ds.foldlM (fun acc dn => do
    let insts ← instances d fuel dn.decl []
    insts.foldlM (fun acc2 inst => do
      let ed ← declE d dn inst
      pure (acc2 ++ [ed])) acc) []
  pure (simplifyKeep generated)

/-- Method `type_def`. -/
def type_def (d : Data) (fuel : Nat) (t : TTypeDef) (ctx : Ctx) :
    Except String (Option ETypeDef) := do
  let en ← type_enum_list d fuel t.enum ctx
  pure (some ⟨t.name, en⟩)

/-- Method `types` (`keep_list = True`). -/
def typesE (d : Data) (fuel : Nat) (ts : List TTypeDef) : Except String (List ETypeDef) := do
  let generated ← ts.mapM (fun t => type_def d fuel t [])
  pure (simplifyKeep generated)

/-- Method `proc_expr_construct` (shared by init / invariant / unsafe):
`alter_f` on the formula, so a formula that expands away deletes the whole
construct. -/
def proc_expr_construct (d : Data) (fuel : Nat) (c : TProcExpr) (ctx : Ctx) :
    Except String (Option EProcExpr) := do
  match ← or_expr d fuel c.expr ctx with
  | none => pure none
  | some eo => pure (some ⟨c.procs, eo⟩)

/-- Method `proc_expr_construct_list` (`keep_list = True`). -/
def proc_expr_construct_list (d : Data) (fuel : Nat) (cs : List TProcExpr) :
    Except String (List EProcExpr) := do
  let generated ← cs.foldlM (fun acc c => do
    let insts ← instances d fuel c.decl []
    insts.foldlM (fun acc2 inst => do
      let ec ← proc_expr_construct d fuel c inst
      pure (acc2 ++ [ec])) acc) []
  pure (simplifyKeep generated)

/-- Method `TemplateEngine.run`: expand every category, in the evaluation
order of the Python keyword arguments.  No category is checked for
emptiness here: empty `decls` / `unsafes` / `transitions` lists and a
`None` `init` pass straight into the result. -/
def run (d : Data) (fuel : Nat) (ast : TModel) : Except String EModel := do
  let types ← typesE d fuel ast.types
  let declsR ← decls d fuel ast.decls
  let init ← proc_expr_construct d fuel ast.init []
  let invariants ← proc_expr_construct_list d fuel ast.invariants
  let unsafes ← proc_expr_construct_list d fuel ast.unsafes
  let transitionsR ← transitions d fuel ast.transitions
  pure ⟨ast.size_proc, types, declsR, init, invariants, unsafes, transitionsR⟩

/-! ## Printer (`printer.py`, `ExpandedAstPrinter` and its expression base
classes), serializing a fully expanded tree to the literal DSL text. -/

def printRef : ERef → String
  | .array n idx => n ++ "[" ++ String.intercalate ", " idx ++ "]"
  | .var n => n

def printRValue : ERValue → String
  | .ref r => printRef r
  | .const c => c

def printExpr : EExpr → String
  | .val v => printRValue v
  | .op o l r => printRValue l ++ " " ++ o ++ " " ++ printRValue r

def printComp (c : EComp) : String :=
  printExpr c.lhs ++ " " ++ c.op ++ " " ++ printExpr c.rhs

mutual
/-- Printer functions `bool_expr` / `forall_expr` / `and_elem` over the
expanded tree. -/
def printBool : EBool → String
  | .fa proc (.comp c) => "forall_other " ++ proc ++ ". " ++ printComp c
  | .fa proc (.expr o) => "forall_other " ++ proc ++ ". (" ++
      String.intercalate " || " (printAndList o) ++ ")"
  | .comp c => printComp c

def printBoolList : List EBool → List String
  | [] => []
  | b :: rest => printBool b :: printBoolList rest

def printAndList : List (List EBool) → List String
  | [] => []
  | a :: rest => String.intercalate " && " (printBoolList a) :: printAndList rest
end

/-- Printer function `and_expr`: AND elements joined by `&&`. -/
def printAnd (a : EAnd) : String :=
  String.intercalate " && " (printBoolList a)

/-- Printer function `or_expr`: OR elements joined by `||`. -/
def printOr (o : EOr) : String :=
  String.intercalate " || " (printAndList o)

/-- Local `line_proc_expr_construct` of `ExpandedAstPrinter.write`. -/
def lineProcExpr (s : EProcExpr) (nm : String) : String :=
  nm ++ " (" ++ String.intercalate " " s.procs ++ ") \x7b " ++ printOr s.expr ++ " \x7d\n"

/-- Method `ExpandedAstPrinter.write`: render the expanded model, one line
per element in source order.  Python crashes with an `AttributeError` when
`init` is `None` (`line_proc_expr_construct` reads `.procs` on `None`),
modelled as the error case.  An engine-produced type always carries an enum
list (possibly empty), so the `t.enum is not None` check in the source is
always true here. -/
def write (ast : EModel) : Except String String := do
  let head := match ast.size_proc with
    | some sp => "number_procs " ++ sp ++ "\n"
    | none => ""
  let tys := String.join (ast.types.map (fun t =>
    "type " ++ t.name ++ " = " ++ String.intercalate " | " t.enum ++ "\n"))
  let ds := String.join (ast.decls.map (fun dn =>
    dn.kind ++ " " ++ printRef dn.name ++ " : " ++ dn.typename ++ "\n"))
  let initLine ← match ast.init with
    | none => .error "AttributeError: NoneType object has no attribute procs"
    | some i => pure (lineProcExpr i "init")
  let invs := String.join (ast.invariants.map (fun i => lineProcExpr i "invariant"))
  let uns := String.join (ast.unsafes.map (fun u => lineProcExpr u "unsafe"))
  let trs := String.join (ast.transitions.map (fun t =>
    "transition " ++ t.name ++ " (" ++ String.intercalate " " t.procs ++ ")\n" ++
    (match t.require with
     | some r => "\trequires \x7b " ++ printOr r ++ " \x7d\n"
     | none => "") ++
    "\x7b\n" ++
    String.join (t.updates.map (fun u =>
      match u.rhs with
      | .switch cs =>
        "\t" ++ printRef u.lhs ++ " := case\n" ++
        String.join (cs.map (fun c =>
          match c with
          | .wildcard e => "\t\t| _ : " ++ printExpr e ++ "\n"
          | .guarded cond e => "\t\t| " ++ printAnd cond ++ " : " ++ printExpr e ++ "\n")) ++
        "\t;\n"
      | .expr e => "\t" ++ printRef u.lhs ++ " := " ++ printExpr e ++ ";\n"
      | .rand => "\t" ++ printRef u.lhs ++ " := ?;\n")) ++
    "\x7d\n"))
  pure (head ++ tys ++ ds ++ initLine ++ invs ++ uns ++ trs)

/-- Method `Compiler.run` (the part inside the core): expand the template
AST with the data, then print the result. -/
def compileRun (d : Data) (fuel : Nat) (ast : TModel) : Except String String := do
  let expanded ← run d fuel ast
  write expanded

/-! ## Helper lemmas about the instance sort -/

theorem charsLE_total (a b : List Char) : charsLE a b || charsLE b a := by
  induction a generalizing b with
  | nil => simp [charsLE]
  | cons x xs ih =>
    cases b with
    | nil => simp [charsLE]
    | cons y ys =>
      simp only [charsLE]
      by_cases h1 : x.toNat < y.toNat
      · simp [h1]
      · by_cases h2 : y.toNat < x.toNat
        · simp [h1, h2]
        · simp [h1, h2, ih ys]

theorem keyLE_total (a b : Data) : keyLE a b || keyLE b a := by
  cases a <;> cases b <;>
    simp_all [keyLE, Data.rank, charsLE_total] <;> omega

theorem charsLE_trans {a b c : List Char} (hab : charsLE a b = true)
    (hbc : charsLE b c = true) : charsLE a c = true := by
  induction a generalizing b c with
  | nil => simp [charsLE]
  | cons x xs ih =>
    cases b with
    | nil => simp [charsLE] at hab
    | cons y ys =>
      cases c with
      | nil => simp [charsLE] at hbc
      | cons z zs =>
        simp only [charsLE] at hab hbc ⊢
        by_cases h1 : x.toNat < y.toNat <;> by_cases h2 : y.toNat < z.toNat
        · simp [Nat.lt_trans h1 h2]
        · rw [if_neg h2] at hbc
          by_cases h3 : z.toNat < y.toNat
          · rw [if_pos h3] at hbc; exact absurd hbc (by simp)
          · have hxz : x.toNat < z.toNat := by omega
            simp [hxz]
        · rw [if_neg h1] at hab
          by_cases h4 : y.toNat < x.toNat
          · rw [if_pos h4] at hab; exact absurd hab (by simp)
          · have hxz : x.toNat < z.toNat := by omega
            simp [hxz]
        · rw [if_neg h1] at hab
          rw [if_neg h2] at hbc
          by_cases h4 : y.toNat < x.toNat
          · rw [if_pos h4] at hab; exact absurd hab (by simp)
          · by_cases h5 : z.toNat < y.toNat
            · rw [if_pos h5] at hbc; exact absurd hbc (by simp)
            · rw [if_neg h4] at hab
              rw [if_neg h5] at hbc
              have hxz : ¬ (x.toNat < z.toNat) := by omega
              have hzx : ¬ (z.toNat < x.toNat) := by omega
              rw [if_neg hxz, if_neg hzx]
              exact ih hab hbc

theorem keyLE_trans {a b c : Data} (hab : keyLE a b = true) (hbc : keyLE b c = true) :
    keyLE a c = true := by
  cases a <;> cases b <;> cases c <;>
    simp_all [keyLE, Data.rank] <;>
    first
      | omega
      | exact charsLE_trans hab hbc

theorem insertByKey_perm (x : Binding) (l : List Binding) :
    (insertByKey x l).Perm (x :: l) := by
  induction l with
  | nil => simp [insertByKey]
  | cons y ys ih =>
    simp only [insertByKey]
    split
    · exact List.Perm.refl _
    · exact (List.Perm.cons y ih).trans (List.Perm.swap x y ys)

theorem sortByKey_perm (l : List Binding) : (sortByKey l).Perm l := by
  induction l with
  | nil => simp [sortByKey]
  | cons x xs ih =>
    exact (insertByKey_perm x (sortByKey xs)).trans (List.Perm.cons x ih)

theorem length_sortByKey (l : List Binding) : (sortByKey l).length = l.length :=
  (sortByKey_perm l).length_eq

/-- Bindings in sort order: the relation used by `Pairwise` below. -/
def bindLE (a b : Binding) : Prop := keyLE (keyOf a) (keyOf b) = true

theorem insertByKey_sorted (x : Binding) (l : List Binding)
    (h : l.Pairwise bindLE) : (insertByKey x l).Pairwise bindLE := by
  induction l with
  | nil => simp [insertByKey, bindLE]
  | cons y ys ih =>
    simp only [insertByKey]
    split
    · rename_i hxy
      refine List.Pairwise.cons ?_ h
      intro z hz
      rcases List.mem_cons.mp hz with rfl | hz
      · exact hxy
      · have hyz := (List.pairwise_cons.mp h).1 z hz
        exact keyLE_trans hxy hyz
    · rename_i hxy
      have hyx : keyLE (keyOf y) (keyOf x) = true := by
        have := keyLE_total (keyOf x) (keyOf y)
        simpa [hxy] using this
      rw [List.pairwise_cons] at h
      refine List.Pairwise.cons ?_ (ih h.2)
      intro z hz
      have hz2 := (insertByKey_perm x ys).mem_iff.mp hz
      rcases List.mem_cons.mp hz2 with rfl | hz2
      · exact hyx
      · exact h.1 z hz2

theorem sortByKey_sorted (l : List Binding) : (sortByKey l).Pairwise bindLE := by
  induction l with
  | nil => simp [sortByKey]
  | cons x xs ih => exact insertByKey_sorted x (sortByKey xs) ih

/-! ## Claim C1 — structural emptiness -/

/-- A degenerate model: no types, no declarations, an init formula with no
OR elements, no invariants, no unsafes, no transitions. -/
def emptyModel : TModel :=
  ⟨none, [], [], ⟨none, [], .mk []⟩, [], [], []⟩

/-- C1 counterexample.  The claim says a run whose expanded declarations /
init / unsafes / transitions are empty raises a structural-emptiness hard
error.  On this concrete AST (all four categories degenerate) and the empty
data environment, `TemplateEngine.run` completes without any error,
returning empty declaration / unsafe / transition lists and a `None` init —
exactly the "silent empty output" the claim rules out. -/
theorem C1_counterexample :
    run (.map []) 1 emptyModel = .ok ⟨none, [], [], none, [], [], []⟩ := rfl

/-- C1 amended.  `TemplateEngine.run` performs no structural-emptiness
check at all: for every data environment and fuel, expanding a model whose
declaration / unsafe / transition lists are empty and whose init formula
has no elements completes successfully, with empty lists in those
categories (`simplify (…, keep_list = True)`, commented "allow no
declaration (cubicle error)" in the source) and a `None` init formula;
emptiness is delegated to the downstream consumer. -/
theorem C1_amended (d : Data) (fuel : Nat) (sp : Option String) (procs : List String) :
    run d (fuel + 1) ⟨sp, [], [], ⟨none, procs, .mk []⟩, [], [], []⟩ =
      .ok ⟨sp, [], [], none, [], [], []⟩ := rfl

/-! ## Claim C8 — binding normalization and field access -/

/-- C8, evaluated at the failing input.  `normalize`'s own docstring says a
scalar entry of a mapping is stored as `val=element`, but the code executes
`dict (value = value)`: the scalar lands under the field name `value`, and
a field reference `@0.val@` fails with a field-not-found error.  The other
parts of the claim hold: a sequence element yields only `_key`; a mapping
value keeps its fields with `_key` overwritten in place to the entry key;
and a bare key reference resolves exactly like an explicit `._key` field
reference (same `get_ref` call; only the error-wrapper text differs, hence
the statement over the unwrapped `expandCore`). -/
theorem C8_normalize_value_field :
    -- scalar mapping value: stored under "value", not "val"
    normalize (.str "k") (some (.str "s")) = [("value", .str "s"), ("_key", .str "k")] ∧
    bFind (normalize (.str "k") (some (.str "s"))) "val" = none ∧
    (expand (.map []) (.field_ref 0 "val") [normalize (.str "k") (some (.str "s"))]).isOk
      = false ∧
    expand (.map []) (.field_ref 0 "value") [normalize (.str "k") (some (.str "s"))]
      = .ok (.str "s") ∧
    -- sequence element: only _key
    (∀ (k : Data), normalize k none = [("_key", k)]) ∧
    -- mapping value that is itself a mapping: fields kept, _key overwritten in place
    normalize (.str "k") (some (.map [("a", .num 1), ("_key", .str "old")]))
      = [("a", .num 1), ("_key", .str "k")] ∧
    normalize (.str "k") (some (.map [("a", .num 1)])) = [("a", .num 1), ("_key", .str "k")] ∧
    -- bare @n@ ≡ @n._key@
    (∀ (d : Data) (n : Nat) (ctx : Ctx),
        expandCore d (.key_ref n) ctx = expandCore d (.field_ref n "_key") ctx) :=
  ⟨rfl, rfl, rfl, rfl, fun _ => rfl, rfl, rfl, fun _ _ _ => rfl⟩

/-! ## Claim C3 — per-iterator replication count and order -/

/-- Reduction of an `Except` bind on a known-ok value (do-notation step). -/
theorem ok_bind {ε α β : Type} (a : α) (f : α → Except ε β) :
    (Except.ok a : Except ε α) >>= f = f a := rfl

/-- Reduction of `pure` to the ok constructor. -/
theorem pure_eq_ok {ε α : Type} (a : α) : (pure a : Except ε α) = .ok a := rfl

/-- Reduction of `recursive_generator` on an exhausted reference list, for
any fuel. -/
theorem recGen_nil (d : Data) (fuel : Nat) (ctx : Ctx) :
    recGen d fuel [] ctx = .ok [[]] := by
  cases fuel <;> rfl

/-- Reduction of `eval_cond` on an absent condition, for any fuel. -/
theorem eval_cond_none (d : Data) (fuel : Nat) (ctx : Ctx) :
    eval_cond d fuel none ctx = .ok true := by
  cases fuel <;> rfl

/-- Mapping a singleton-producing function is a `flatMap` by singletons. -/
theorem flatMap_single {α β : Type} (f : α → β) (l : List α) :
    (l.flatMap (fun x => [f x])) = l.map f := by
  induction l <;> simp_all

/-- A monadic left fold whose body always succeeds, appending `g h` per
element, collects `l.flatMap g`. -/
theorem foldlM_ok_append {α β : Type} (g : α → List β) :
    ∀ (l : List α) (acc : List β),
      List.foldlM (fun acc h => (Except.ok (acc ++ g h) : Except String (List β))) acc l
        = .ok (acc ++ l.flatMap g) := by
  intro l
  induction l with
  | nil => intro acc; simp [pure_eq_ok]
  | cons x xs ih =>
    intro acc
    rw [List.foldlM_cons, ok_bind, ih]
    simp

/-- Characterization of `recursive_generator` on a single-reference list:
expand, normalize, sort, and yield one singleton sub-instance per binding. -/
theorem recGen_single (d : Data) (fuel : Nat) (t : Tpl) (ctx : Ctx) (v : Data)
    (items : List Binding)
    (hv : expand d t ctx = .ok v) (hi : toBindings t v = .ok items) :
    recGen d (fuel + 1) [t] ctx = .ok ((sortByKey items).map (fun h => [h])) := by
  simp only [recGen, hv, ok_bind, hi, List.map_cons, List.map_nil, pure_eq_ok]
  rw [foldlM_ok_append (fun h => [[h]]) (sortByKey items) []]
  simp only [List.nil_append]
  rw [show ((sortByKey items).flatMap fun h => [[h]])
    = (sortByKey items).map (fun h => [h]) from List.flatMap_pure_eq_map (fun h => [h]) _]

/-- Characterization of `instances` for a single-reference declaration
without condition: one instance per binding, in sorted-key order. -/
theorem instances_single_nocond (d : Data) (fuel : Nat) (t : Tpl) (ctx : Ctx) (v : Data)
    (items : List Binding)
    (hv : expand d t ctx = .ok v) (hi : toBindings t v = .ok items) :
    instances d (fuel + 2) (some (.mk [t] none)) ctx
        = .ok ((sortByKey items).map (fun h => ctx ++ [h])) := by
  have hsub := recGen_single d fuel t ctx v items hv hi
  simp only [instances, TDecl.args, TDecl.cond, eval_cond_none, pure_eq_ok]
  rw [hsub, ok_bind]
  simp only [ok_bind, if_true, eq_self_iff_true]
  rw [foldlM_ok_append (fun sub => [ctx ++ sub]) ((sortByKey items).map (fun h => [h])) []]
  rw [flatMap_single (fun sub => ctx ++ sub)]
  simp [List.map_map, Function.comp_def]

/-- The filtering loop of `instances` over singleton sub-instances, given
the value of the condition on each candidate. -/
theorem instances_loop_cond (d : Data) (fuel : Nat) (c : TOr) (ctx : Ctx)
    (f : Binding → Bool) :
    ∀ (l : List Binding) (acc : List Ctx),
      (∀ b ∈ l, eval_cond d fuel (some c) (ctx ++ [b]) = .ok (f b)) →
      List.foldlM (fun acc sub => do
          let keep ← eval_cond d fuel (some c) (ctx ++ sub)
          pure (if keep then acc ++ [ctx ++ sub] else acc)) acc (l.map (fun h => [h]))
        = .ok (acc ++ (l.filter f).map (fun h => ctx ++ [h])) := by
  intro l
  induction l with
  | nil => intro acc _; simp [pure_eq_ok]
  | cons x xs ih =>
    intro acc h
    have hx := h x (List.mem_cons_self x xs)
    rw [List.map_cons, List.foldlM_cons]
    simp only [hx, ok_bind, pure_eq_ok] at ih ⊢
    rw [ih _ (fun b hb => h b (List.mem_cons_of_mem x hb))]
    cases hfx : f x <;> simp [hfx, List.filter_cons]

/-- Characterization of `instances` for a single-reference declaration with
a condition: the sorted candidates are filtered by the condition's value. -/
theorem instances_single_cond (d : Data) (fuel : Nat) (t : Tpl) (ctx : Ctx) (v : Data)
    (items : List Binding) (c : TOr) (f : Binding → Bool)
    (hv : expand d t ctx = .ok v) (hi : toBindings t v = .ok items)
    (hc : ∀ b ∈ sortByKey items,
        eval_cond d (fuel + 1) (some c) (ctx ++ [b]) = .ok (f b)) :
    instances d (fuel + 2) (some (.mk [t] (some c))) ctx
        = .ok (((sortByKey items).filter f).map (fun h => ctx ++ [h])) := by
  have hsub := recGen_single d fuel t ctx v items hv hi
  simp only [instances, TDecl.args, TDecl.cond]
  rw [hsub, ok_bind]
  rw [instances_loop_cond d (fuel + 1) c ctx f (sortByKey items) [] hc]
  simp

/-- C3.  A template iterator over a single reference whose expansion
normalizes to the binding list `items` (N elements in the data's native
order), with no condition, yields exactly one instance per binding — N
instances — ordered by sorted key (the output is a permutation of the
native-order collection, sorted under `keyLE`, which is code-point text
order for string keys), regardless of the native order; with a condition,
it yields exactly the sorted candidates whose condition evaluates true, in
the same sorted order. -/
theorem C3_replication (d : Data) (fuel : Nat) (t : Tpl) (ctx : Ctx) (v : Data)
    (items : List Binding) (c : TOr) (f : Binding → Bool)
    (hv : expand d t ctx = .ok v) (hi : toBindings t v = .ok items)
    (hc : ∀ b ∈ sortByKey items,
        eval_cond d (fuel + 1) (some c) (ctx ++ [b]) = .ok (f b)) :
    instances d (fuel + 2) (some (.mk [t] none)) ctx
        = .ok ((sortByKey items).map (fun h => ctx ++ [h])) ∧
    ((sortByKey items).map (fun h => ctx ++ [h])).length = items.length ∧
    (sortByKey items).Pairwise bindLE ∧
    (sortByKey items).Perm items ∧
    instances d (fuel + 2) (some (.mk [t] (some c))) ctx
        = .ok (((sortByKey items).filter f).map (fun h => ctx ++ [h])) :=
  ⟨instances_single_nocond d fuel t ctx v items hv hi,
   by simp [length_sortByKey],
   sortByKey_sorted items,
   sortByKey_perm items,
   instances_single_cond d fuel t ctx v items c f hv hi hc⟩

/-- C3 witness: data `{"T": {"b": 1, "a": 2, "c": 3}}` — native order b, a,
c — yields three instances in sorted order a, b, c without a condition, and
exactly the two instances satisfying `@0@ <> b` with that condition. -/
theorem C3_replication_witness :
    instances (.map [("T", .map [("b", .num 1), ("a", .num 2), ("c", .num 3)])]) 5
        (some (.mk [.arg "T"] none)) []
      = .ok [[[("value", .num 2), ("_key", .str "a")]],
             [[("value", .num 1), ("_key", .str "b")]],
             [[("value", .num 3), ("_key", .str "c")]]] ∧
    instances (.map [("T", .map [("b", .num 1), ("a", .num 2), ("c", .num 3)])]) 5
        (some (.mk [.arg "T"]
          (some (.mk [.expr [.expr (.comp ⟨"<>",
            .val (.ref (.var ⟨"", [(.key_ref 0, "")]⟩)),
            .val (.const "b")⟩)]])))) []
      = .ok [[[("value", .num 2), ("_key", .str "a")]],
             [[("value", .num 3), ("_key", .str "c")]]] := by
  have h := C3_replication
    (.map [("T", .map [("b", .num 1), ("a", .num 2), ("c", .num 3)])]) 3
    (.arg "T") [] (.map [("b", .num 1), ("a", .num 2), ("c", .num 3)])
    [[("value", .num 1), ("_key", .str "b")],
     [("value", .num 2), ("_key", .str "a")],
     [("value", .num 3), ("_key", .str "c")]]
    (.mk [.expr [.expr (.comp ⟨"<>",
      .val (.ref (.var ⟨"", [(.key_ref 0, "")]⟩)),
      .val (.const "b")⟩)]])
    (fun b => (keyOf b).format != "b")
    rfl rfl
    (by
      intro b hb
      rw [show sortByKey
          [[("value", .num 1), ("_key", .str "b")],
           [("value", .num 2), ("_key", .str "a")],
           [("value", .num 3), ("_key", .str "c")]]
        = [[("value", .num 2), ("_key", .str "a")],
           [("value", .num 1), ("_key", .str "b")],
           [("value", .num 3), ("_key", .str "c")]] from rfl] at hb
      simp only [List.mem_cons, List.not_mem_nil, or_false] at hb
      rcases hb with rfl | rfl | rfl <;> rfl)
  exact ⟨h.1, h.2.2.2.2⟩

/-! ## Claim C4 — dependent left-to-right cross product -/

/-- Membership-dependent version of the successful-fold lemma. -/
theorem foldlM_ok_append_mem {α β : Type} (g : α → List β)
    (F : List β → α → Except String (List β)) :
    ∀ (l : List α), (∀ (acc : List β), ∀ x ∈ l, F acc x = .ok (acc ++ g x)) →
    ∀ (acc : List β), List.foldlM F acc l = .ok (acc ++ l.flatMap g) := by
  intro l
  induction l with
  | nil => intro _ acc; simp [pure_eq_ok]
  | cons x xs ih =>
    intro hF acc
    rw [List.foldlM_cons, hF acc x (List.mem_cons_self x xs), ok_bind,
      ih (fun acc2 y hy => hF acc2 y (List.mem_cons_of_mem x hy)) (acc ++ g x)]
    simp

/-- C4.  First conjunct: the defining recurrence of the cross product, for
a reference list of any length — the head reference is expanded against the
outer context, and the remaining references are expanded against the outer
context extended with the binding chosen for the head, one sub-instance
list per chosen head binding, concatenated in sorted-head order.  Second
conjunct: for a two-reference declaration, each generated combination pairs
a first binding `b₁` with a second binding obtained by expanding reference
1 against `ctx ++ [b₁]` — the specific binding chosen for that combination,
never a shared value. -/
theorem C4_dependent_product (d : Data) (fuel : Nat) (t1 t2 : Tpl) (ts : List Tpl)
    (ctx : Ctx) (v1 : Data) (items1 : List Binding)
    (tails : Binding → List Ctx) (v2 : Binding → Data) (items2 : Binding → List Binding)
    (hv1 : expand d t1 ctx = .ok v1) (hi1 : toBindings t1 v1 = .ok items1)
    (hrec : ∀ b ∈ sortByKey items1, recGen d fuel ts (ctx ++ [b]) = .ok (tails b))
    (hv2 : ∀ b ∈ sortByKey items1, expand d t2 (ctx ++ [b]) = .ok (v2 b))
    (hi2 : ∀ b ∈ sortByKey items1, toBindings t2 (v2 b) = .ok (items2 b)) :
    recGen d (fuel + 1) (t1 :: ts) ctx
      = .ok ((sortByKey items1).flatMap (fun b => (tails b).map (fun tl => b :: tl))) ∧
    instances d (fuel + 3) (some (.mk [t1, t2] none)) ctx
      = .ok ((sortByKey items1).flatMap (fun b1 =>
          (sortByKey (items2 b1)).map (fun b2 => ctx ++ [b1, b2]))) := by
  constructor
  · rw [show recGen d (fuel + 1) (t1 :: ts) ctx = (do
        let it ← expand d t1 ctx
        let items ← toBindings t1 it
        (sortByKey items).foldlM (fun acc h => do
          let tails ← recGen d fuel ts (ctx ++ [h])
          pure (acc ++ tails.map (fun tl => h :: tl))) []) from rfl]
    simp only [hv1, ok_bind, hi1]
    rw [foldlM_ok_append_mem (fun b => (tails b).map (fun tl => b :: tl)) _ _
      (fun acc x hx => by rw [hrec x hx, ok_bind, pure_eq_ok]) []]
    simp
  · have hpair : recGen d (fuel + 2) [t1, t2] ctx
        = .ok ((sortByKey items1).flatMap (fun b1 =>
            (sortByKey (items2 b1)).map (fun b2 => [b1, b2]))) := by
      rw [show recGen d (fuel + 2) [t1, t2] ctx = (do
          let it ← expand d t1 ctx
          let items ← toBindings t1 it
          (sortByKey items).foldlM (fun acc h => do
            let tails ← recGen d (fuel + 1) [t2] (ctx ++ [h])
            pure (acc ++ tails.map (fun tl => h :: tl))) []) from rfl]
      simp only [hv1, ok_bind, hi1]
      rw [foldlM_ok_append_mem
        (fun b1 => (sortByKey (items2 b1)).map (fun b2 => [b1, b2])) _ _
        (fun acc x hx => by
          rw [recGen_single d fuel t2 (ctx ++ [x]) (v2 x) (items2 x) (hv2 x hx) (hi2 x hx),
            ok_bind, pure_eq_ok]
          simp [List.map_map, Function.comp_def]) []]
      simp
    simp only [instances, TDecl.args, TDecl.cond, eval_cond_none, pure_eq_ok]
    rw [hpair, ok_bind]
    simp only [ok_bind, if_true, eq_self_iff_true]
    rw [foldlM_ok_append (fun sub => [ctx ++ sub]) _ []]
    rw [flatMap_single (fun sub => ctx ++ sub)]
    simp [List.map_flatMap, List.map_map, Function.comp_def]

/-- C4 witness: data
`{"T": {"A": {"deps": ["x"]}, "B": {"deps": ["y", "z"]}}}` with declaration
`@T, 0.deps@`: the combinations are (A, x), (B, y), (B, z) — the second
reference reads the `deps` field of the specific first binding of each
combination. -/
theorem C4_dependent_product_witness :
    instances (.map [("T", .map
        [("A", .map [("deps", .seq [.str "x"])]),
         ("B", .map [("deps", .seq [.str "y", .str "z"])])])]) 5
      (some (.mk [.arg "T", .field_ref 0 "deps"] none)) []
    = .ok [[[("deps", .seq [.str "x"]), ("_key", .str "A")], [("_key", .str "x")]],
           [[("deps", .seq [.str "y", .str "z"]), ("_key", .str "B")], [("_key", .str "y")]],
           [[("deps", .seq [.str "y", .str "z"]), ("_key", .str "B")], [("_key", .str "z")]]] := by
  have h := C4_dependent_product
    (.map [("T", .map
      [("A", .map [("deps", .seq [.str "x"])]),
       ("B", .map [("deps", .seq [.str "y", .str "z"])])])])
    2 (.arg "T") (.field_ref 0 "deps") [.field_ref 0 "deps"] []
    (.map [("A", .map [("deps", .seq [.str "x"])]),
           ("B", .map [("deps", .seq [.str "y", .str "z"])])])
    [[("deps", .seq [.str "x"]), ("_key", .str "A")],
     [("deps", .seq [.str "y", .str "z"]), ("_key", .str "B")]]
    (fun b => if (keyOf b).format == "A"
      then [[[("_key", .str "x")]]]
      else [[[("_key", .str "y")]], [[("_key", .str "z")]]])
    (fun b => if (keyOf b).format == "A"
      then .seq [.str "x"]
      else .seq [.str "y", .str "z"])
    (fun b => if (keyOf b).format == "A"
      then [[("_key", .str "x")]]
      else [[("_key", .str "y")], [("_key", .str "z")]])
    rfl rfl
    (by
      intro b hb
      rw [show sortByKey
          [[("deps", .seq [.str "x"]), ("_key", .str "A")],
           [("deps", .seq [.str "y", .str "z"]), ("_key", .str "B")]]
        = [[("deps", .seq [.str "x"]), ("_key", .str "A")],
           [("deps", .seq [.str "y", .str "z"]), ("_key", .str "B")]] from rfl] at hb
      simp only [List.mem_cons, List.not_mem_nil, or_false] at hb
      rcases hb with rfl | rfl <;> rfl)
    (by
      intro b hb
      rw [show sortByKey
          [[("deps", .seq [.str "x"]), ("_key", .str "A")],
           [("deps", .seq [.str "y", .str "z"]), ("_key", .str "B")]]
        = [[("deps", .seq [.str "x"]), ("_key", .str "A")],
           [("deps", .seq [.str "y", .str "z"]), ("_key", .str "B")]] from rfl] at hb
      simp only [List.mem_cons, List.not_mem_nil, or_false] at hb
      rcases hb with rfl | rfl <;> rfl)
    (by
      intro b hb
      rw [show sortByKey
          [[("deps", .seq [.str "x"]), ("_key", .str "A")],
           [("deps", .seq [.str "y", .str "z"]), ("_key", .str "B")]]
        = [[("deps", .seq [.str "x"]), ("_key", .str "A")],
           [("deps", .seq [.str "y", .str "z"]), ("_key", .str "B")]] from rfl] at hb
      simp only [List.mem_cons, List.not_mem_nil, or_false] at hb
      rcases hb with rfl | rfl <;> rfl)
  exact h.2

/-! ## Claim C2 — DNF distribution of AND over nested OR -/

/-- The loop body of `and_expr_with_nested_or`, named for the proofs below
(definitionally equal to the inline lambda in the definition). -/
def andWStep (d : Data) (fuel : Nat) (ctx : Ctx) :
    List (Option EBool) × List (Option (List EAnd)) → AndElem →
    Except String (List (Option EBool) × List (Option (List EAnd))) :=
  fun acc ae =>
    match ae with
    | .expr b => do
      let eb ← bool_expr d fuel b ctx
      pure (acc.1 ++ [eb], acc.2)
    | .template decl body => do
      let insts ← instances d fuel (some decl) ctx
      let nl ← insts.foldlM (fun acc2 inst => do
        let sub ← and_expr_with_nested_or d fuel body inst
        pure (acc2 ++ [some sub])) acc.2
      pure (acc.1, nl)
    | .orE o => do
      let oe ← or_expr d fuel o ctx
      pure (acc.1, acc.2 ++ [oe])

theorem andW_unfold (d : Data) (fuel : Nat) (a : TAnd) (ctx : Ctx) :
    and_expr_with_nested_or d (fuel + 1) a ctx = (do
      let acc ← a.foldlM (andWStep d fuel ctx) ([], [])
      pure ((listProduct (simplifyKeep acc.2)).map
        (fun combo => simplifyKeep acc.1 ++ combo.flatten))) := rfl

theorem andWStep_expr_ok (d : Data) (fuel : Nat) (ctx : Ctx) (b : TBool) (eb : Option EBool)
    (acc : List (Option EBool) × List (Option (List EAnd)))
    (hb : bool_expr d fuel b ctx = .ok eb) :
    andWStep d fuel ctx acc (.expr b) = .ok (acc.1 ++ [eb], acc.2) := by
  simp only [andWStep, hb, ok_bind, pure_eq_ok]

theorem andWStep_orE_ok (d : Data) (fuel : Nat) (ctx : Ctx) (o : TOr) (oe : Option (List EAnd))
    (acc : List (Option EBool) × List (Option (List EAnd)))
    (ho : or_expr d fuel o ctx = .ok oe) :
    andWStep d fuel ctx acc (.orE o) = .ok (acc.1, acc.2 ++ [oe]) := by
  simp only [andWStep, ho, ok_bind, pure_eq_ok]

theorem andW_loop_plain (d : Data) (fuel : Nat) (ctx : Ctx) :
    ∀ {ps : List TBool} {pEs : List (Option EBool)},
    List.Forall₂ (fun b eb => bool_expr d fuel b ctx = .ok eb) ps pEs →
    ∀ acc, List.foldlM (andWStep d fuel ctx) acc (ps.map AndElem.expr)
      = .ok (acc.1 ++ pEs, acc.2) := by
  intro ps pEs h
  induction h with
  | nil => intro acc; simp [pure_eq_ok]
  | @cons a b ps2 pEs2 hab htl ih =>
    intro acc
    rw [List.map_cons, List.foldlM_cons, andWStep_expr_ok d fuel ctx a b acc hab, ok_bind,
      ih (acc.1 ++ [b], acc.2)]
    simp

theorem listProduct_single {α : Type} (l : List α) :
    listProduct [l] = l.map (fun x => [x]) := by
  simp [listProduct, flatMap_single]

/-- C2 amended.  For an AND expression nested in an OR consisting of plain
boolean elements around one parenthesized OR sub-term, the expansion is the
product over the OR's branches where every product branch is the flat list
of the plain elements FIRST (in their relative order, wherever they
occurred), followed by the chosen branch
(`sum (combination, bool_expr_list)` puts `bool_expr_list` first); in
particular `p AND (q OR r)` expands to exactly `[[p, q], [p, r]]`. -/
theorem C2_flat_first_distribution (d : Data) (fuel : Nat) (ctx : Ctx)
    (ps qs : List TBool) (pEs qEs : List EBool) (o : TOr) (bs : EOr)
    (hp : List.Forall₂ (fun b eb => bool_expr d fuel b ctx = .ok (some eb)) ps pEs)
    (hq : List.Forall₂ (fun b eb => bool_expr d fuel b ctx = .ok (some eb)) qs qEs)
    (ho : or_expr d fuel o ctx = .ok (some bs)) :
    and_expr_with_nested_or d (fuel + 1) (ps.map .expr ++ [.orE o] ++ qs.map .expr) ctx
      = .ok (bs.map (fun b => (pEs ++ qEs) ++ b)) := by
  have hp2 : List.Forall₂ (fun b eb => bool_expr d fuel b ctx = .ok eb) ps (pEs.map some) :=
    by exact List.forall₂_map_right_iff.mpr hp
  have hq2 : List.Forall₂ (fun b eb => bool_expr d fuel b ctx = .ok eb) qs (qEs.map some) :=
    by exact List.forall₂_map_right_iff.mpr hq
  rw [andW_unfold]
  rw [List.foldlM_append, List.foldlM_append, andW_loop_plain d fuel ctx hp2 ([], []),
    ok_bind, List.foldlM_cons, andWStep_orE_ok d fuel ctx o (some bs) _ ho, ok_bind,
    List.foldlM_nil, pure_eq_ok, ok_bind, andW_loop_plain d fuel ctx hq2 _, ok_bind,
    pure_eq_ok]
  simp only [List.nil_append, List.append_nil]
  rw [show simplifyKeep [some bs] = [bs] from rfl]
  rw [listProduct_single]
  rw [show simplifyKeep (pEs.map some ++ qEs.map some) = pEs ++ qEs from by
    simp [simplifyKeep, List.filterMap_append]]
  simp [List.map_map, Function.comp_def]

/-- Plain comparison used in the C2 example (`x = x` for a constant x). -/
def selfComp (x : String) : TBool := .comp ⟨"=", .val (.const x), .val (.const x)⟩

/-- Its expansion. -/
def selfCompE (x : String) : EBool := .comp ⟨"=", .val (.const x), .val (.const x)⟩

/-- C2 counterexample.  The claim demands that each product branch preserve
the relative order of the original elements.  On `(q OR r) AND p` — nested
OR first, plain element second — the code produces the branches
`[p, q], [p, r]` with the flat element `p` first, not the order-preserving
`[q, p], [r, p]`; the second conjunct separates the two outcomes. -/
theorem C2_counterexample :
    and_expr_with_nested_or (.map []) 10
      [.orE (.mk [.expr [.expr (selfComp "q")], .expr [.expr (selfComp "r")]]),
       .expr (selfComp "p")] []
      = .ok [[selfCompE "p", selfCompE "q"], [selfCompE "p", selfCompE "r"]] ∧
    printOr [[selfCompE "p", selfCompE "q"], [selfCompE "p", selfCompE "r"]]
      ≠ printOr [[selfCompE "q", selfCompE "p"], [selfCompE "r", selfCompE "p"]] :=
  ⟨rfl, by decide⟩

/-- C2 witness: `p AND (q OR r)` expands to exactly `[[p, q], [p, r]]`,
with `p` before `q` / `r` in each branch. -/
theorem C2_flat_first_distribution_witness :
    and_expr_with_nested_or (.map []) 6
      [.expr (selfComp "p"),
       .orE (.mk [.expr [.expr (selfComp "q")], .expr [.expr (selfComp "r")]])] []
      = .ok [[selfCompE "p", selfCompE "q"], [selfCompE "p", selfCompE "r"]] :=
  C2_flat_first_distribution (.map []) 5 [] [selfComp "p"] [] [selfCompE "p"] []
    (.mk [.expr [.expr (selfComp "q")], .expr [.expr (selfComp "r")]])
    [[selfCompE "q"], [selfCompE "r"]]
    (List.Forall₂.cons rfl List.Forall₂.nil)
    List.Forall₂.nil
    rfl

/-! ## Claim C6 — name expansion and identifier validation -/

/-- Characterization of the reference-expansion `mapM` inside `name`. -/
theorem nameE_mapM (d : Data) (ctx : Ctx) :
    ∀ {tl : List (Tpl × String)} {vs : List Data},
    List.Forall₂ (fun p v => expand d p.1 ctx = .ok v) tl vs →
    tl.mapM (fun p => do
      let v ← expand d p.1 ctx
      pure (v.format, p.2))
      = .ok ((tl.zip vs).map (fun q => (q.2.format, q.1.2))) := by
  intro tl vs h
  induction h with
  | nil => rfl
  | @cons p v tl2 vs2 hab htl ih =>
    rw [List.mapM_cons, hab, ok_bind, pure_eq_ok, ok_bind, ih, ok_bind, pure_eq_ok]
    simp

/-- C6.  When every embedded reference of a name expands (to `vs`), the
expansion of the name is the interleaving of the literal fragments with the
formatted values; if that string matches `^[A-Za-z][A-Za-z0-9_]*$` the name
expands to it, otherwise the branch fails with the name-format error
carrying the unexpanded name text and the malformed result. -/
theorem C6_name_validation (d : Data) (ctx : Ctx) (n : TName) (vs : List Data)
    (h : List.Forall₂ (fun p v => expand d p.1 ctx = .ok v) n.tail vs) :
    (nameFormat (n.head ++ String.join
        ((n.tail.zip vs).map (fun q => q.2.format ++ q.1.2))) = true →
      nameE d n ctx = .ok (n.head ++ String.join
        ((n.tail.zip vs).map (fun q => q.2.format ++ q.1.2)))) ∧
    (nameFormat (n.head ++ String.join
        ((n.tail.zip vs).map (fun q => q.2.format ++ q.1.2))) = false →
      nameE d n ctx = .error ("in name " ++ nameStr n ++ ": " ++ ("malformed: " ++
        (n.head ++ String.join
          ((n.tail.zip vs).map (fun q => q.2.format ++ q.1.2)))))) := by
  have hms : (n.tail.mapM (fun p => do
      let v ← expand d p.1 ctx
      pure (v.format, p.2))) = .ok ((n.tail.zip vs).map (fun q => (q.2.format, q.1.2))) :=
    nameE_mapM d ctx h
  simp only [pure_eq_ok] at hms
  have hmap : ((n.tail.zip vs).map (fun q => (q.2.format, q.1.2))).map (fun p => p.1 ++ p.2)
      = (n.tail.zip vs).map (fun q => q.2.format ++ q.1.2) := by
    simp [List.map_map, Function.comp_def]
  constructor
  · intro hfmt
    simp only [nameE, hms, ok_bind, hmap, hfmt, if_true, pure_eq_ok]
  · intro hfmt
    simp only [nameE, hms, ok_bind, hmap, hfmt, if_false, Bool.false_eq_true, pure_eq_ok]

/-- C6 witness: data `{"key": "1bad"}` expanding `@key@_value` fails with
the name-format error, while `{"key": "ok1"}` renders literally as
`ok1_value`. -/
theorem C6_name_validation_witness :
    nameE (.map [("key", .str "1bad")]) ⟨"", [(.arg "key", "_value")]⟩ []
      = .error "in name @key@_value: malformed: 1bad_value" ∧
    nameE (.map [("key", .str "ok1")]) ⟨"", [(.arg "key", "_value")]⟩ []
      = .ok "ok1_value" :=
  ⟨(C6_name_validation (.map [("key", .str "1bad")]) [] ⟨"", [(.arg "key", "_value")]⟩
      [.str "1bad"] (List.Forall₂.cons rfl List.Forall₂.nil)).2 rfl,
   (C6_name_validation (.map [("key", .str "ok1")]) [] ⟨"", [(.arg "key", "_value")]⟩
      [.str "ok1"] (List.Forall₂.cons rfl List.Forall₂.nil)).1 rfl⟩

/-! ## Claim C5 — the restricted condition evaluator -/

/-- A side of a comparison that the text evaluator accepts: a literal
constant or a non-array reference. -/
def allowedSide : EExpr → Bool
  | .val (.ref (.var _)) => true
  | .val (.const _) => true
  | _ => false

/-- The text an accepted side reduces to: the reference's expanded name or
the constant. -/
def sideText : EExpr → String
  | .val (.ref (.var n)) => n
  | .val (.const c) => c
  | _ => ""

/-- A comparison the text evaluator accepts: operator `=` or `<>` with two
accepted sides. -/
def allowedComp (c : EComp) : Bool :=
  (c.op == "=" || c.op == "<>") && allowedSide c.lhs && allowedSide c.rhs

/-- The value of an accepted comparison: string equality / inequality of
the two sides' text. -/
def compValue (c : EComp) : Bool :=
  if c.op == "=" then sideText c.lhs == sideText c.rhs
  else sideText c.lhs != sideText c.rhs

def allowedBool : EBool → Bool
  | .comp c => allowedComp c
  | .fa _ _ => false

def boolValue : EBool → Bool
  | .comp c => compValue c
  | .fa _ _ => false

theorem textEvalExpr_allowed (e : EExpr) (h : allowedSide e = true) :
    textEvalExpr e = .ok (sideText e) := by
  match e with
  | .val (.ref (.var n)) => rfl
  | .val (.const c) => rfl
  | .val (.ref (.array n idx)) => simp [allowedSide] at h
  | .op o a b => simp [allowedSide] at h

theorem textEvalComp_allowed (c : EComp) (h : allowedComp c = true) :
    textEvalComp c = .ok (compValue c) := by
  unfold allowedComp at h
  simp only [Bool.and_eq_true, Bool.or_eq_true, beq_iff_eq] at h
  obtain ⟨⟨hop, hl⟩, hr⟩ := h
  rcases hop with hop | hop <;>
    simp [textEvalComp, compValue, hop, textEvalExpr_allowed c.lhs hl,
      textEvalExpr_allowed c.rhs hr, ok_bind, pure_eq_ok]

theorem textEvalAnd_allowed : ∀ (a : EAnd), (∀ b ∈ a, allowedBool b = true) →
    textEvalAnd a = .ok (a.all boolValue) := by
  intro a
  induction a with
  | nil => intro _; rfl
  | cons b rest ih =>
    intro h
    have hb := h b (List.mem_cons_self b rest)
    cases b with
    | fa p fb => simp [allowedBool] at hb
    | comp c =>
      rw [show textEvalAnd (EBool.comp c :: rest) = (do
          let v ← textEvalBool (.comp c)
          if v then textEvalAnd rest else pure false) from rfl]
      rw [show textEvalBool (.comp c) = textEvalComp c from rfl,
        textEvalComp_allowed c hb, ok_bind]
      cases hv : compValue c
      · simp [List.all_cons, boolValue, hv, pure_eq_ok]
      · rw [if_pos rfl, ih (fun x hx => h x (List.mem_cons_of_mem _ hx))]
        simp [List.all_cons, boolValue, hv]

theorem textEvalOr_allowed : ∀ (o : EOr), (∀ a ∈ o, ∀ b ∈ a, allowedBool b = true) →
    textEvalOr o = .ok (o.any (fun a => a.all boolValue)) := by
  intro o
  induction o with
  | nil => intro _; rfl
  | cons a rest ih =>
    intro h
    rw [show textEvalOr (a :: rest) = (do
        let v ← textEvalAnd a
        if v then pure true else textEvalOr rest) from rfl]
    rw [textEvalAnd_allowed a (h a (List.mem_cons_self a rest)), ok_bind]
    cases hv : a.all boolValue
    · rw [if_neg (by simp), ih (fun x hx => h x (List.mem_cons_of_mem a hx))]
      simp [List.any_cons, hv]
    · simp [List.any_cons, hv, pure_eq_ok]

/-- C5.  The text evaluator accepts exactly comparisons with operator `=`
or `<>` whose sides are a literal constant or a non-array reference name:
on fully-accepted conditions the OR is true iff some AND branch has every
comparison true (textual comparison); an array reference, a plus/minus
operation, a forall construct, or any other comparison operator raises a
hard error naming the disallowed construct. -/
theorem C5_condition_evaluator :
    (∀ (o : EOr), (∀ a ∈ o, ∀ b ∈ a, allowedBool b = true) →
      textEvalOr o = .ok (o.any (fun a => a.all boolValue))) ∧
    (∀ (n : String) (idx : List String) (rhs : EExpr),
      textEvalComp ⟨"=", .val (.ref (.array n idx)), rhs⟩
        = .error "arrays are not allowed in text evaluation") ∧
    (∀ (o2 : String) (a b : ERValue) (rhs : EExpr),
      textEvalComp ⟨"=", .op o2 a b, rhs⟩
        = .error "+/- operations are not allowed in text evaluation") ∧
    (∀ (p : String) (fb : EForallBody),
      textEvalBool (.fa p fb)
        = .error "forall constructs are not allowed in text evaluation") ∧
    (∀ (op : String) (lhs rhs : EExpr), op ≠ "=" → op ≠ "<>" →
      textEvalComp ⟨op, lhs, rhs⟩
        = .error (op ++ " operations are not allowed in text evaluation")) := by
  refine ⟨textEvalOr_allowed, fun n idx rhs => rfl, fun o2 a b rhs => rfl,
    fun p fb => rfl, ?_⟩
  intro op lhs rhs h1 h2
  simp [textEvalComp, h1, h2]

/-- C5 witness: a condition `x = x OR a <> a` (over expanded names and
constants) evaluates to true through its first branch, and the comparison
operator `<` is rejected with an error naming it. -/
theorem C5_condition_evaluator_witness :
    textEvalOr [[.comp ⟨"=", .val (.ref (.var "x")), .val (.const "x")⟩],
                [.comp ⟨"<>", .val (.const "a"), .val (.const "a")⟩]] = .ok true ∧
    textEvalComp ⟨"<", .val (.const "a"), .val (.const "b")⟩
      = .error "< operations are not allowed in text evaluation" :=
  ⟨C5_condition_evaluator.1
      [[.comp ⟨"=", .val (.ref (.var "x")), .val (.const "x")⟩],
       [.comp ⟨"<>", .val (.const "a"), .val (.const "a")⟩]] (by decide),
   C5_condition_evaluator.2.2.2.2 "<" (.val (.const "a")) (.val (.const "b"))
      (by decide) (by decide)⟩


/-! ## Claim C9 — purely textual condition evaluation -/

/-- C9.  Condition evaluation is purely textual: `eval_cond` first expands
the condition with the engine in the candidate instance's context and only
then text-evaluates the result (first conjunct, the definitional pipeline);
engine expansion replaces a non-array reference by its expanded name string
(second conjunct); and the text evaluator compares those strings (and
constant tokens) by string equality — its result does not depend on the
data environment at all, so a reference is never compared by any value
bound to its name (remaining conjuncts, stated without any data). -/
theorem C9_textual_condition (d : Data) (fuel : Nat) (ctx : Ctx) (c : TOr)
    (nL nR : TName) (sL sR cst : String) (op : String)
    (hL : nameE d nL ctx = .ok sL) (hR : nameE d nR ctx = .ok sR) :
    eval_cond d (fuel + 1) (some c) ctx = (do
      let expanded ← or_expr d fuel c ctx
      match expanded with
      | none => .error "TypeError: NoneType object is not iterable"
      | some eo => textEvalOr eo) ∧
    comp_expr d ⟨op, .val (.ref (.var nL)), .val (.ref (.var nR))⟩ ctx
      = .ok (some ⟨op, .val (.ref (.var sL)), .val (.ref (.var sR))⟩) ∧
    textEvalComp ⟨"=", .val (.ref (.var sL)), .val (.ref (.var sR))⟩ = .ok (sL == sR) ∧
    textEvalComp ⟨"<>", .val (.ref (.var sL)), .val (.ref (.var sR))⟩ = .ok (sL != sR) ∧
    textEvalComp ⟨"=", .val (.ref (.var sL)), .val (.const cst)⟩ = .ok (sL == cst) := by
  refine ⟨rfl, ?_, rfl, rfl, rfl⟩
  simp only [comp_expr, exprE, rvalueE, refE, hL, hR, ok_bind, pure_eq_ok]

/-- C9 witness: with data binding `x` to the value `something_else`, the
condition machinery compares the name text `x`, not the bound value: the
expanded comparison `x = x` is true and `x = something_else` is false. -/
theorem C9_textual_condition_witness :
    comp_expr (.map [("x", .str "something_else")])
        ⟨"=", .val (.ref (.var ⟨"x", []⟩)), .val (.ref (.var ⟨"x", []⟩))⟩ []
      = .ok (some ⟨"=", .val (.ref (.var "x")), .val (.ref (.var "x"))⟩) ∧
    textEvalComp ⟨"=", .val (.ref (.var "x")), .val (.ref (.var "x"))⟩ = .ok true ∧
    textEvalComp ⟨"=", .val (.ref (.var "x")), .val (.const "something_else")⟩
      = .ok false :=
  ⟨(C9_textual_condition (.map [("x", .str "something_else")]) 0 [] (.mk [])
      ⟨"x", []⟩ ⟨"x", []⟩ "x" "x" "something_else" "=" rfl rfl).2.1,
   (C9_textual_condition (.map [("x", .str "something_else")]) 0 [] (.mk [])
      ⟨"x", []⟩ ⟨"x", []⟩ "x" "x" "something_else" "=" rfl rfl).2.2.1,
   (C9_textual_condition (.map [("x", .str "something_else")]) 0 [] (.mk [])
      ⟨"x", []⟩ ⟨"x", []⟩ "x" "x" "something_else" "=" rfl rfl).2.2.2.2⟩


/-! ## Claim C10 — bottom-up emptiness cascade -/

/-- Reduction of `instances` on an absent declaration, for any fuel. -/
theorem instances_none (d : Data) (fuel : Nat) (ctx : Ctx) :
    instances d fuel none ctx = .ok [ctx] := by
  cases fuel <;> rfl

/-- C10.  Emptiness cascades bottom-up through `alter_f` and `simplify`:
(1) a transition whose expanded update list is empty (`None`) is removed
from the transitions list entirely; (2) an assignment whose switch expands
to `None` becomes `None` itself and is dropped from its update list, while
the other updates survive; (3) a switch with zero cases expands to `None`;
(4) an update list with zero entries expands to `None` (which is what makes
the enclosing transition vanish). -/
theorem C10_emptiness_cascade :
    (∀ (d : Data) (fuel : Nat) (t : TTransition) (nm : String) (req : Option EOr),
      t.decl = none →
      or_expr d fuel t.require [] = .ok req →
      nameE d t.name [] = .ok nm →
      update_list d fuel t.updates [] = .ok none →
      transitions d fuel [t] = .ok []) ∧
    (∀ (d : Data) (fuel : Nat) (ctx : Ctx) (lhs : TRef) (s : List SwitchElem)
        (u2 : TAssign) (el : ERef) (eu2 : EAssign),
      refE d lhs ctx = .ok (some el) →
      switch d fuel s ctx = .ok none →
      assign d (fuel + 2) u2 ctx = .ok (some eu2) →
      update_list d (fuel + 3) [.assign ⟨lhs, .switch s⟩, .assign u2] ctx
        = .ok (some [eu2])) ∧
    (∀ (d : Data) (fuel : Nat) (ctx : Ctx),
      switch d (fuel + 1) ([] : List SwitchElem) ctx = .ok none) ∧
    (∀ (d : Data) (fuel : Nat) (ctx : Ctx),
      update_list d (fuel + 1) ([] : List UpdateElem) ctx = .ok none) := by
  refine ⟨?_, ?_, fun d fuel ctx => rfl, fun d fuel ctx => rfl⟩
  · intro d fuel t nm req hd hreq hnm hupd
    simp only [transitions, List.foldlM_cons, List.foldlM_nil, hd, instances_none,
      ok_bind, transition, hreq, hnm, hupd, pure_eq_ok]
    rfl
  · intro d fuel ctx lhs s u2 el eu2 hlhs hs hu2
    have h1 : assign d (fuel + 2) ⟨lhs, .switch s⟩ ctx = .ok none := by
      simp only [assign, assign_value, hlhs, hs, ok_bind, pure_eq_ok]
    simp only [update_list, List.foldlM_cons, List.foldlM_nil, h1, hu2, ok_bind,
      pure_eq_ok]
    rfl

/-- C10 witness: a transition with an empty update list is dropped from the
expanded transitions (result `[]`), and an assignment guarded by an empty
switch is dropped from an update list while a sibling assignment
survives. -/
theorem C10_emptiness_cascade_witness :
    transitions (.map []) 2 [⟨none, ⟨"tr", []⟩, [], .mk [], []⟩] = .ok [] ∧
    update_list (.map []) 4
        [.assign ⟨.var ⟨"v", []⟩, .switch []⟩, .assign ⟨.var ⟨"w", []⟩, .rand⟩] []
      = .ok (some [⟨.var "w", .rand⟩]) :=
  ⟨C10_emptiness_cascade.1 (.map []) 2 ⟨none, ⟨"tr", []⟩, [], .mk [], []⟩ "tr" none
      rfl rfl rfl rfl,
   C10_emptiness_cascade.2.1 (.map []) 1 [] (.var ⟨"v", []⟩) [] ⟨.var ⟨"w", []⟩, .rand⟩
      (.var "v") ⟨.var "w", .rand⟩ rfl rfl rfl⟩


/-! ## Claim C7 — determinism and order-independence -/

theorem find_key_eq (e1 e2 : List (String × Data)) (hperm : e1.Perm e2)
    (hnd : (e1.map Prod.fst).Nodup) (a : String) :
    e1.find? (fun p => p.1 == a) = e2.find? (fun p => p.1 == a) := by
  cases hfind : e1.find? (fun p => p.1 == a) with
  | none =>
    rw [List.find?_eq_none] at hfind
    symm
    rw [List.find?_eq_none]
    intro x hx
    exact hfind x (hperm.symm.subset hx)
  | some p =>
    have hp_mem : p ∈ e1 := List.mem_of_find?_eq_some hfind
    have hp_key := List.find?_some hfind
    cases hfind2 : e2.find? (fun p => p.1 == a) with
    | none =>
      rw [List.find?_eq_none] at hfind2
      exact absurd hp_key (by simpa using hfind2 p (hperm.subset hp_mem))
    | some q =>
      have hq_mem : q ∈ e1 := hperm.symm.subset (List.mem_of_find?_eq_some hfind2)
      have hq_key := List.find?_some hfind2
      have hpq : p = q := by
        apply List.inj_on_of_nodup_map hnd hp_mem hq_mem
        rw [show p.1 = a from by simpa using hp_key,
          show q.1 = a from by simpa using hq_key]
      rw [hpq]

theorem charsLE_antisymm : ∀ {a b : List Char},
    charsLE a b = true → charsLE b a = true → a = b := by
  intro a
  induction a with
  | nil =>
    intro b _ hba
    cases b with
    | nil => rfl
    | cons y ys => simp [charsLE] at hba
  | cons x xs ih =>
    intro b hab hba
    cases b with
    | nil => simp [charsLE] at hab
    | cons y ys =>
      simp only [charsLE] at hab hba
      by_cases h1 : x.toNat < y.toNat
      · rw [if_neg (by omega), if_pos h1] at hba
        exact absurd hba (by simp)
      · by_cases h2 : y.toNat < x.toNat
        · rw [if_neg h1, if_pos h2] at hab
          exact absurd hab (by simp)
        · rw [if_neg h1, if_neg h2] at hab
          rw [if_neg h2, if_neg h1] at hba
          have hxy : x = y := Char.eq_of_val_eq (UInt32.ext (by
            have h1x : ¬ x.val.toNat < y.val.toNat := h1
            have h2x : ¬ y.val.toNat < x.val.toNat := h2
            omega))
          rw [hxy, ih hab hba]

/-- Two lists that are permutations of each other, both sorted under
`bindLE`, with keys antisymmetric on their members, are equal. -/
theorem sorted_perm_eq : ∀ (u v : List Binding), u.Perm v →
    u.Pairwise bindLE → v.Pairwise bindLE →
    (∀ a ∈ u, ∀ b ∈ u, bindLE a b → bindLE b a → a = b) → u = v := by
  intro u
  induction u with
  | nil =>
    intro v hp _ _ _
    exact (List.Perm.nil_eq hp).symm ▸ rfl
  | cons x xs ih =>
    intro v hp hu hv hanti
    have hxv : x ∈ v := hp.subset (List.mem_cons_self x xs)
    cases v with
    | nil => simp at hxv
    | cons y ys =>
      have hyu : y ∈ x :: xs := hp.symm.subset (List.mem_cons_self y ys)
      have hxy : x = y := by
        rcases List.mem_cons.mp hyu with h | h
        · exact h.symm
        · rcases List.mem_cons.mp hxv with h2 | h2
          · exact h2
          · have h3 : bindLE x y := (List.pairwise_cons.mp hu).1 y h
            have h4 : bindLE y x := (List.pairwise_cons.mp hv).1 x h2
            exact hanti x (List.mem_cons_self x xs) y hyu h3 h4
      subst hxy
      have hp2 : xs.Perm ys := hp.cons_inv
      rw [ih ys hp2 (List.pairwise_cons.mp hu).2 (List.pairwise_cons.mp hv).2
        (fun a ha b hb hab hba =>
          hanti a (List.mem_cons_of_mem x ha) b (List.mem_cons_of_mem x hb) hab hba)]

theorem bFind_append_last (k : String) (v : Data) :
    ∀ (b : Binding), (∀ q ∈ b, ¬ q.1 = k) → bFind (b ++ [(k, v)]) k = some v := by
  intro b
  induction b with
  | nil => simp [bFind]
  | cons p ps ih =>
    intro h
    have hp : ¬ p.1 = k := h p (List.mem_cons_self p ps)
    simp only [List.cons_append, bFind, List.find?_cons, if_neg]
    rw [show (p.1 == k) = false from by simpa using hp]
    exact ih (fun q hq => h q (List.mem_cons_of_mem p hq))

theorem bFind_setField_same : ∀ (b : Binding) (k : String) (v : Data),
    bFind (setField b k v) k = some v := by
  intro b k v
  by_cases hany : b.any (fun p => p.1 == k)
  · rw [setField, if_pos hany]
    induction b with
    | nil => simp at hany
    | cons p ps ih =>
      by_cases hp : p.1 = k
      · simp [bFind, List.find?_cons, hp]
      · have hps : ps.any (fun q => q.1 == k) := by
          simpa [List.any_cons, hp] using hany
        simp only [List.map_cons]
        rw [show (if p.1 == k then (k, v) else p) = p from by simp [hp]]
        simp only [bFind, List.find?_cons]
        rw [show (p.1 == k) = false from by simpa using hp]
        exact ih hps
  · rw [setField, if_neg hany]
    apply bFind_append_last
    intro q hq
    simp only [List.any_eq_true] at hany
    intro hqk
    exact hany ⟨q, hq, by simpa using hqk⟩

theorem keyOf_normalize_str (k : String) (v : Data) :
    keyOf (normalize (.str k) (some v)) = .str k := by
  cases v <;> simp [normalize, keyOf, bFind_setField_same]

/-- Permuting the entries of an iterated mapping (distinct keys) does not
change the sorted binding list the instance generator produces. -/
theorem sortNorm_perm_invariant (entries1 entries2 : List (String × Data))
    (hperm : entries1.Perm entries2) (hnd : (entries1.map Prod.fst).Nodup) :
    sortByKey (entries1.map (fun p => normalize (.str p.1) (some p.2)))
      = sortByKey (entries2.map (fun p => normalize (.str p.1) (some p.2))) := by
  have hpermN := hperm.map (fun p => normalize (.str p.1) (some p.2))
  apply sorted_perm_eq _ _
    ((sortByKey_perm _).trans (hpermN.trans (sortByKey_perm _).symm))
    (sortByKey_sorted _) (sortByKey_sorted _)
  intro a ha b hb hab hba
  have ha2 := (sortByKey_perm _).subset ha
  have hb2 := (sortByKey_perm _).subset hb
  obtain ⟨p, hp, rfl⟩ := List.mem_map.mp ha2
  obtain ⟨q, hq, rfl⟩ := List.mem_map.mp hb2
  unfold bindLE at hab hba
  rw [keyOf_normalize_str, keyOf_normalize_str] at hab hba
  simp only [keyLE] at hab hba
  have hkeys : p.1 = q.1 := by
    have hdata : p.1.data = q.1.data := charsLE_antisymm hab hba
    cases hk1 : p.1 with
    | mk d1 =>
      cases hk2 : q.1 with
      | mk d2 =>
        rw [hk1, hk2] at hdata
        simp only at hdata
        rw [hdata]
  have := List.inj_on_of_nodup_map hnd hp hq hkeys
  rw [this]

theorem expand_perm_eq (e1 e2 : List (String × Data)) (hperm : e1.Perm e2)
    (hnd : (e1.map Prod.fst).Nodup) :
    expand (.map e1) = expand (.map e2) := by
  funext t ctx
  cases t with
  | arg a => simp only [expand, expandCore, find_key_eq e1 e2 hperm hnd a]
  | key_ref n => rfl
  | field_ref n f => rfl

theorem recGen_ext (d1 d2 : Data) (hE : expand d1 = expand d2) :
    ∀ fuel, recGen d1 fuel = recGen d2 fuel := by
  intro fuel
  induction fuel with
  | zero =>
    funext l ctx
    cases l <;> rfl
  | succ n ih =>
    funext l ctx
    cases l with
    | nil => rfl
    | cons t rest => simp only [recGen, hE, ih]

theorem nameE_ext (d1 d2 : Data) (hE : expand d1 = expand d2) : nameE d1 = nameE d2 := by
  funext n ctx
  simp only [nameE, hE]

theorem exprLevel_ext (d1 d2 : Data) (hE : expand d1 = expand d2) :
    index_list d1 = index_list d2 ∧ refE d1 = refE d2 ∧ rvalueE d1 = rvalueE d2 ∧
    exprE d1 = exprE d2 ∧ comp_expr d1 = comp_expr d2 := by
  have hName := nameE_ext d1 d2 hE
  have hIdx : index_list d1 = index_list d2 := by
    funext il ctx
    simp only [index_list, hName]
  have hRef : refE d1 = refE d2 := by
    funext s ctx
    cases s <;> simp only [refE, hName, hIdx]
  have hRva : rvalueE d1 = rvalueE d2 := by
    funext v ctx
    cases v <;> simp only [rvalueE, hRef]
  have hExpr : exprE d1 = exprE d2 := by
    funext e ctx
    cases e <;> simp only [exprE, hRva]
  have hComp : comp_expr d1 = comp_expr d2 := by
    funext c ctx
    simp only [comp_expr, hExpr]
  exact ⟨hIdx, hRef, hRva, hExpr, hComp⟩

theorem cluster_ext (d1 d2 : Data) (hE : expand d1 = expand d2) :
    ∀ fuel,
      or_expr d1 fuel = or_expr d2 fuel ∧
      and_expr_with_nested_or d1 fuel = and_expr_with_nested_or d2 fuel ∧
      and_expr d1 fuel = and_expr d2 fuel ∧
      bool_expr d1 fuel = bool_expr d2 fuel ∧
      forall_expr d1 fuel = forall_expr d2 fuel ∧
      instances d1 fuel = instances d2 fuel ∧
      eval_cond d1 fuel = eval_cond d2 fuel ∧
      caseE d1 fuel = caseE d2 fuel ∧
      switch d1 fuel = switch d2 fuel ∧
      assign_value d1 fuel = assign_value d2 fuel ∧
      assign d1 fuel = assign d2 fuel ∧
      update_list d1 fuel = update_list d2 fuel ∧
      type_enum_list d1 fuel = type_enum_list d2 fuel := by
  have hName := nameE_ext d1 d2 hE
  obtain ⟨hIdx, hRef, hRva, hExpr, hComp⟩ := exprLevel_ext d1 d2 hE
  have hRec := recGen_ext d1 d2 hE
  intro fuel
  induction fuel with
  | zero =>
    refine ⟨?_, ?_, ?_, ?_, ?_, ?_, ?_, ?_, ?_, ?_, ?_, ?_, ?_⟩ <;>
      funext x ctx <;>
      first
        | rfl
        | (cases x <;> rfl)
  | succ n ih =>
    obtain ⟨ihOr, ihAndW, ihAnd, ihBool, ihFa, ihInst, ihCond, ihCase, ihSwitch,
      ihAV, ihAssign, ihUpd, ihEnum⟩ := ih
    refine ⟨?_, ?_, ?_, ?_, ?_, ?_, ?_, ?_, ?_, ?_, ?_, ?_, ?_⟩
    · funext o ctx
      cases o with
      | mk elems => simp only [or_expr, ihAndW, ihInst]
    · funext a ctx
      simp only [and_expr_with_nested_or, ihBool, ihInst, ihAndW, ihOr]
    · funext a ctx
      simp only [and_expr, ihBool, ihInst, ihAnd]
    · funext b ctx
      cases b with
      | fa p body => simp only [bool_expr, ihFa]
      | comp c => simp only [bool_expr, hComp]
    · funext fb ctx
      cases fb with
      | comp c => simp only [forall_expr, hComp]
      | expr o => simp only [forall_expr, ihOr]
    · funext dec ctx
      cases dec with
      | none => rfl
      | some dc => simp only [instances, hRec, ihCond]
    · funext c ctx
      cases c with
      | none => rfl
      | some c2 => simp only [eval_cond, ihOr]
    · funext c ctx
      cases c with
      | wildcard e => simp only [caseE, hExpr]
      | guarded cond e => simp only [caseE, ihAnd, hExpr]
    · funext s ctx
      simp only [switch, ihCase, ihInst, ihSwitch]
    · funext v ctx
      cases v with
      | switch s => simp only [assign_value, ihSwitch]
      | expr e => simp only [assign_value, hExpr]
      | rand => rfl
    · funext u ctx
      simp only [assign, hRef, ihAV]
    · funext l ctx
      simp only [update_list, ihAssign, ihInst, ihUpd]
    · funext l ctx
      simp only [type_enum_list, hName, ihInst, ihEnum]

theorem run_ext (d1 d2 : Data) (hE : expand d1 = expand d2) (fuel : Nat) :
    run d1 fuel = run d2 fuel ∧ compileRun d1 fuel = compileRun d2 fuel := by
  have hName := nameE_ext d1 d2 hE
  obtain ⟨hIdx, hRef, hRva, hExpr, hComp⟩ := exprLevel_ext d1 d2 hE
  obtain ⟨hOr, hAndW, hAnd, hBool, hFa, hInst, hCond, hCase, hSwitch,
    hAV, hAssign, hUpd, hEnum⟩ := cluster_ext d1 d2 hE fuel
  have hT : transition d1 fuel = transition d2 fuel := by
    funext t ctx
    simp only [transition, hOr, hName, hUpd]
  have hTs : transitions d1 fuel = transitions d2 fuel := by
    funext ts
    simp only [transitions, hInst, hT]
  have hDe : declE d1 = declE d2 := by
    funext dn ctx
    simp only [declE, hRef]
  have hDs : decls d1 fuel = decls d2 fuel := by
    funext ds
    simp only [decls, hInst, hDe]
  have hTd : type_def d1 fuel = type_def d2 fuel := by
    funext t ctx
    simp only [type_def, hEnum]
  have hTys : typesE d1 fuel = typesE d2 fuel := by
    funext ts
    simp only [typesE, hTd]
  have hPe : proc_expr_construct d1 fuel = proc_expr_construct d2 fuel := by
    funext c ctx
    simp only [proc_expr_construct, hOr]
  have hPes : proc_expr_construct_list d1 fuel = proc_expr_construct_list d2 fuel := by
    funext cs
    simp only [proc_expr_construct_list, hInst, hPe]
  have hRun : run d1 fuel = run d2 fuel := by
    funext ast
    simp only [run, hTys, hDs, hPe, hPes, hTs]
  refine ⟨hRun, ?_⟩
  funext ast
  simp only [compileRun, hRun]

/-- C7.  Expansion plus printing is a deterministic function of the AST and
the data environment up to native iteration order: (1) permuting the root
mapping's entries (distinct keys — different native iteration order, same
mapping) leaves the full engine-plus-printer output byte-identical, for
every AST and fuel; (2) the instance ordering a mapping iterator produces
is the sorted-key order: permuting the iterated mapping's entries does not
change the sorted binding list feeding instance generation. -/
theorem C7_determinism :
    (∀ (e1 e2 : List (String × Data)), e1.Perm e2 → (e1.map Prod.fst).Nodup →
      ∀ (fuel : Nat) (ast : TModel),
        compileRun (.map e1) fuel ast = compileRun (.map e2) fuel ast) ∧
    (∀ (entries1 entries2 : List (String × Data)),
      entries1.Perm entries2 → (entries1.map Prod.fst).Nodup →
      sortByKey (entries1.map (fun p => normalize (.str p.1) (some p.2)))
        = sortByKey (entries2.map (fun p => normalize (.str p.1) (some p.2)))) := by
  constructor
  · intro e1 e2 hperm hnd fuel ast
    have hE := expand_perm_eq e1 e2 hperm hnd
    rw [(run_ext (.map e1) (.map e2) hE fuel).2]
  · exact sortNorm_perm_invariant

/-- A small model for the C7 witness: one declaration, a trivial init, and
an unsafe construct replicated over the collection `T`. -/
def permModel : TModel :=
  { size_proc := none
    types := []
    decls := [⟨none, "var", .var ⟨"x", []⟩, "int"⟩]
    init := ⟨none, [], .mk [.expr [.expr (.comp ⟨"=",
      .val (.const "1"), .val (.const "1")⟩)]]⟩
    invariants := []
    unsafes := [⟨none, [],
      .mk [.template (.mk [.arg "T"] none)
        [.expr (.comp ⟨"=", .val (.ref (.var ⟨"x_", [(.key_ref 0, "")]⟩)),
          .val (.const "1")⟩)]]⟩]
    transitions := [] }

/-- C7 witness: swapping the two root entries of the data environment (and
permuting an iterated mapping's entries) changes nothing in the output. -/
theorem C7_determinism_witness :
    compileRun (.map [("T", .seq [.str "A", .str "B"]), ("U", .str "u")]) 20 permModel
      = compileRun (.map [("U", .str "u"), ("T", .seq [.str "A", .str "B"])]) 20
          permModel ∧
    sortByKey ([("b", .num 1), ("a", .num 2)].map
        (fun p => normalize (.str p.1) (some p.2)))
      = sortByKey ([("a", .num 2), ("b", .num 1)].map
        (fun p => normalize (.str p.1) (some p.2))) :=
  ⟨C7_determinism.1 [("T", .seq [.str "A", .str "B"]), ("U", .str "u")]
      [("U", .str "u"), ("T", .seq [.str "A", .str "B"])]
      (List.Perm.swap _ _ _) (by decide) 20 permModel,
   C7_determinism.2 [("b", .num 1), ("a", .num 2)] [("a", .num 2), ("b", .num 1)]
      (List.Perm.swap _ _ _) (by decide)⟩


end Ctc
